import Mathlib

/-!
# de-rm (socialbot): address extraction, interaction aggregation, contact
filtering, contact validation, draft parsing and the chat call

Shallow embedding of `tools/email.go`, `config/contacts.go` and `main.go`.

Modelling conventions
* A Go `string` is a `List Char`: the sequence of its Unicode code points.
  Every string that reaches the embedded functions was decoded from JSON
  (mail headers, contacts file, model response) and is valid UTF-8; the
  separators searched for (`<`, `>`, ` (`, `@`, newline, `Subject: `) are
  ASCII, so searching and slicing by code point agrees with searching and
  slicing by byte.
* A Go `int` is an `Int` (no arithmetic here comes near the 64-bit range:
  counters are bounded by the 500 listed messages).
* A `time.Time` is the `Int` instant it denotes, measured from the zero
  `time.Time`; only `After` is ever used on times.
* A Go `error` is `Option (List Char)`: `none` is `nil`, `some msg` is an
  error whose text is `msg`.
-/

namespace Socialbot

/-! ## The parts of the Go standard library that the code calls -/

/-- Go `unicode.IsSpace`: the Latin-1 spaces tab, LF, VT, FF, CR, space,
U+0085, U+00A0 and the other code points of the White_Space property. -/
def isSpace (c : Char) : Bool :=
  let n := c.toNat
  (0x09 ≤ n && n ≤ 0x0D) || n == 0x20 || n == 0x85 || n == 0xA0 || n == 0x1680 ||
  (0x2000 ≤ n && n ≤ 0x200A) || n == 0x2028 || n == 0x2029 || n == 0x202F ||
  n == 0x205F || n == 0x3000

/-- Go `strings.TrimSpace`: all leading and trailing white space removed. -/
def TrimSpace (s : List Char) : List Char :=
  ((s.dropWhile isSpace).reverse.dropWhile isSpace).reverse

/-- Go `strings.HasPrefix`. -/
def HasPrefix (s pre : List Char) : Bool := pre.isPrefixOf s

/-- Go `strings.TrimPrefix`: `s` without the leading `pre`, or `s` itself. -/
def TrimPrefix (s pre : List Char) : List Char :=
  if HasPrefix s pre then s.drop pre.length else s

/-- Scan for Go `strings.Index`: `i` is the position of the first element of
the text still to search. -/
def indexFrom (substr : List Char) : List Char → Nat → Int
  | [], i => if substr.isPrefixOf [] then (i : Int) else -1
  | c :: cs, i => if substr.isPrefixOf (c :: cs) then (i : Int) else indexFrom substr cs (i + 1)

/-- Go `strings.Index`: the position of the first instance of `substr` in `s`,
or `-1` when there is none. -/
def Index (s substr : List Char) : Int := indexFrom substr s 0

/-- Go `strings.Contains`. -/
def Contains (s substr : List Char) : Bool := decide (0 ≤ Index s substr)

/-- Go slice expression `s[i:j]` (for `0 ≤ i ≤ j ≤ len(s)`). -/
def slice (s : List Char) (i j : Int) : List Char := (s.take j.toNat).drop i.toNat

/-- Go slice expression `s[i:]`. -/
def sliceFrom (s : List Char) (i : Int) : List Char := s.drop i.toNat

/-- Go `strings.Split(s, sep)` for a separator `sep` of one character: the
pieces of `s` between the instances of `sep` (one piece more than there are
instances). -/
def Split : List Char → Char → List (List Char)
  | [], _ => [[]]
  | c :: cs, sep =>
    if c = sep then [] :: Split cs sep
    else
      match Split cs sep with
      | [] => [[c]]
      | l :: ls => (c :: l) :: ls

/-- Go `strings.Join`. -/
def Join (elems : List (List Char)) (sep : List Char) : List Char := sep.intercalate elems

/-- A Go `error` value: `none` is `nil`, `some msg` an error with text `msg`. -/
abbrev GoError := Option (List Char)

/-- A `time.Time`, as the instant it denotes counted from the zero `time.Time`
(which is therefore `0`). -/
abbrev Time := Int

/-- Go `Time.After`: `t` is an instant strictly later than `u`. -/
def After (t u : Time) : Bool := decide (u < t)

/-- A Go `map[string]V`, as an association list with pairwise distinct keys. -/
abbrev GoMap (V : Type) := List (List Char × V)

/-- The map read `v, ok := m[k]`: `none` when `k` is not a key. -/
def mapGet {V : Type} : GoMap V → List Char → Option V
  | [], _ => none
  | (k', v) :: rest, k => if k' = k then some v else mapGet rest k

/-- The map write `m[k] = v`: replaces the value at `k`, or adds the key. -/
def mapSet {V : Type} : GoMap V → List Char → V → GoMap V
  | [], k, v => [(k, v)]
  | (k', v') :: rest, k, v => if k' = k then (k, v) :: rest else (k', v') :: mapSet rest k v

/-- What `for _, v := range m` may visit: the values of the map, each once, in
an order that Go leaves unspecified. -/
def rangeValues {V : Type} (m : GoMap V) (visited : List V) : Prop :=
  visited.Perm (m.map Prod.snd)

/-- What a Go call does besides returning: it returns normally with a value,
or it panics (nil dereference, index out of range). -/
inductive Run (α : Type) where
  | returns (val : α)
  | panics
  deriving Repr, DecidableEq

/-! ## config/contacts.go -/

/-- Source: `Contact` (config/contacts.go 12-18). -/
structure Contact where
  Email : List Char
  Name : List Char
  Priority : Int
  RSSFeed : List Char
  WritingSample : List Char
  deriving Repr, DecidableEq

/-- Source: `Contact.validate` (config/contacts.go 20-34). -/
def validate (c : Contact) : GoError :=
  if TrimSpace c.Email = [] then
    some "email is required".toList
  else if !Contains c.Email ['@'] then
    some ("invalid email format: ".toList ++ c.Email)
  else if TrimSpace c.Name = [] then
    some ("name is required for ".toList ++ c.Email)
  else if c.Priority < 1 ∨ c.Priority > 5 then
    some ("priority must be between 1-5 for ".toList ++ c.Email)
  else
    none

/-! ## tools/email.go -/

/-- Source: `EmailInteraction` (tools/email.go 27-33). -/
structure EmailInteraction where
  Participant : List Char
  Name : List Char
  Priority : Int
  LastContact : Time
  Count : Int
  deriving Repr, DecidableEq

/-- Source: `DraftEmail` (tools/email.go 35-39). -/
structure DraftEmail where
  Subject : List Char
  Body : List Char
  To : List Char
  deriving Repr, DecidableEq

/-- A `gmail.MessagePartHeader`: one header of a fetched message. -/
structure Header where
  Name : List Char
  Value : List Char
  deriving Repr, DecidableEq

/-- A fetched `gmail.Message`, as far as the code reads it:
`message.Payload.Headers`. -/
structure Message where
  Headers : List Header
  deriving Repr, DecidableEq

/-- Source: `extractEmail` (tools/email.go 196-212). -/
def extractEmail («from» : List Char) : List Char :=
  let start := Index «from» ['<']
  let fmt1 : Option (List Char) :=
    if 0 ≤ start then
      let «end» := Index (sliceFrom «from» start) ['>']
      if 0 ≤ «end» then some (TrimSpace (slice «from» (start + 1) (start + «end»))) else none
    else none
  match fmt1 with
  | some r => r
  | none =>
    let «end» := Index «from» [' ', '(']
    if 0 ≤ «end» then TrimSpace (slice «from» 0 «end»)
    else TrimSpace «from»


/-- Source: `parseEmailDate` (tools/email.go 214-216). `timeParse` stands for
`time.Parse(time.RFC1123Z, ·)`, which on failure returns the zero time together
with the error. -/
def parseEmailDate (timeParse : List Char → Except (List Char) Time) (date : List Char) :
    Time × GoError :=
  match timeParse date with
  | .ok t => (t, none)
  | .error e => (0, some e)

/-- Source: the header loop of `GetRecentInteractions` (tools/email.go 153-164):
the values of `from` and `date` after all headers were visited. -/
def scanHeaders (timeParse : List Char → Except (List Char) Time) (headers : List Header) :
    List Char × Time :=
  headers.foldl
    (fun (acc : List Char × Time) header =>
      if header.Name = "From".toList then (extractEmail header.Value, acc.2)
      else if header.Name = "Date".toList then (acc.1, (parseEmailDate timeParse header.Value).1)
      else acc)
    ([], 0)

/-- Source: one turn of the message loop of `GetRecentInteractions`
(tools/email.go 146-183). `fetched` is the result of `Messages.Get`: `none`
when the fetch failed. -/
def interactionsStep (timeParse : List Char → Except (List Char) Time)
    (interactions : GoMap EmailInteraction) (fetched : Option Message) :
    GoMap EmailInteraction :=
  match fetched with
  | none => interactions
  | some message =>
    let fd := scanHeaders timeParse message.Headers
    if fd.1 = [] then interactions
    else
      match mapGet interactions fd.1 with
      | some interaction =>
        mapSet interactions fd.1
          { interaction with
            Count := interaction.Count + 1
            LastContact := if After fd.2 interaction.LastContact then fd.2
                           else interaction.LastContact }
      | none =>
        mapSet interactions fd.1
          { Participant := fd.1, Name := [], Priority := 0, LastContact := fd.2, Count := 1 }

/-- Source: the message loop of `GetRecentInteractions` (tools/email.go
144-183): the map `interactions` after all listed messages were visited. -/
def interactionsLoop (timeParse : List Char → Except (List Char) Time)
    (messages : List (Option Message)) : GoMap EmailInteraction :=
  messages.foldl (interactionsStep timeParse) []

/-- Source: `EmailTool.filterAndEnrichInteractions` (tools/email.go 105-121);
`importantContacts` is what `config.GetImportantContacts()` returned. -/
def filterAndEnrichInteractions (importantContacts : List Contact)
    (interactions : List EmailInteraction) : List EmailInteraction :=
  let contactMap : GoMap Contact :=
    importantContacts.foldl (fun m contact => mapSet m contact.Email contact) []
  interactions.foldl
    (fun filtered interaction =>
      match mapGet contactMap interaction.Participant with
      | some contact =>
        filtered ++ [{ interaction with Name := contact.Name, Priority := contact.Priority }]
      | none => filtered)
    []

/-- Source: `GetRecentInteractions` from the message loop on (tools/email.go
144-193): `out` is a slice the call may return for the listed messages. -/
def GetRecentInteractionsReturns (timeParse : List Char → Except (List Char) Time)
    (importantContacts : List Contact) (messages : List (Option Message))
    (out : List EmailInteraction) : Prop :=
  ∃ result, rangeValues (interactionsLoop timeParse messages) result ∧
    out = filterAndEnrichInteractions importantContacts result

/-- Source: the raw message that `EmailTool.SaveDraft` writes (tools/email.go
219-226). -/
def draftMessage (draft : DraftEmail) : List Char :=
  "From: me\n".toList ++ ("To: ".toList ++ draft.To ++ "\n".toList) ++
    ("Subject: ".toList ++ draft.Subject ++ "\n".toList) ++
    "Content-Type: text/plain; charset=UTF-8\n".toList ++ ("\n".toList ++ draft.Body)

/-- Source: `EmailTool.SaveDraft` (tools/email.go 218-242). `draftsCreate` stands
for the remote `Users.Drafts.Create(...).Do()` on the (encoded) raw message. -/
def SaveDraft (draftsCreate : List Char → GoError) (draft : DraftEmail) : GoError :=
  match draftsCreate (draftMessage draft) with
  | some err => some ("failed to create draft: ".toList ++ err)
  | none => none

/-- The sender that the message loop derives from a fetched message: the value
of `from` when the header loop ends. -/
def msgFrom (timeParse : List Char → Except (List Char) Time) (m : Message) : List Char :=
  (scanHeaders timeParse m.Headers).1

/-- The date that the message loop derives from a fetched message: the value
of `date` when the header loop ends. -/
def msgDate (timeParse : List Char → Except (List Char) Time) (m : Message) : Time :=
  (scanHeaders timeParse m.Headers).2

/-! ## tools/rss.go -/

/-- Source: `BlogPost` (tools/rss.go 10-14). -/
structure BlogPost where
  Title : List Char
  Link : List Char
  Published : Time
  deriving Repr, DecidableEq

/-! ## main.go -/

/-- A `genai.CountTokensResponse`. -/
structure CountTokensResponse where
  TotalTokens : Int
  deriving Repr, DecidableEq

/-- A `genai.Part`, as the text that `fmt.Sprint` prints for it. -/
structure Part where
  sprint : List Char
  deriving Repr, DecidableEq

/-- A `genai.Content`. -/
structure Content where
  Parts : List Part
  deriving Repr, DecidableEq

/-- A `genai.Candidate`; `Content` is a pointer, `none` when nil. -/
structure Candidate where
  Content : Option Content
  deriving Repr, DecidableEq

/-- A `genai.GenerateContentResponse`; `Candidates` is a slice of pointers. -/
structure GenerateContentResponse where
  Candidates : List (Option Candidate)
  deriving Repr, DecidableEq

/-- The remote model behind `s.model.GenerativeModel("gemini-pro")`: each call
returns a response pointer (`none` when nil) and an error. -/
structure GenerativeModel where
  CountTokens : List Char → Option CountTokensResponse × GoError
  GenerateContent : List Char → Option GenerateContentResponse × GoError

/-- Source: `SocialAssistant.Chat` (main.go 37-54). The log calls are dropped,
the evaluation of their arguments is kept: line 47 reads
`tokResp.TotalTokens` whatever `err` was. -/
def SocialAssistant.Chat (model : GenerativeModel) (input : List Char) : Run (List Char × GoError) :=
  let tokResp := (model.CountTokens input).1
  match tokResp with
  | none => .panics
  | some _ =>
    let gen := model.GenerateContent input
    match gen.2 with
    | some err => .returns ([], some ("failed to generate response: ".toList ++ err))
    | none =>
      match gen.1 with
      | none => .panics
      | some resp =>
        match resp.Candidates with
        | [] => .panics
        | none :: _ => .panics
        | some candidate :: _ =>
          match candidate.Content with
          | none => .panics
          | some content =>
            match content.Parts with
            | [] => .panics
            | part :: _ => .returns (part.sprint, none)

/-- The variables of the line loop of `parseEmailResponse`. -/
structure ParseState where
  Subject : List Char
  bodyLines : List (List Char)
  inBody : Bool
  deriving Repr, DecidableEq

/-- Source: one turn of the line loop of `parseEmailResponse` (main.go
148-156). -/
def parseStep (st : ParseState) (line : List Char) : ParseState :=
  if HasPrefix line "Subject: ".toList then
    { st with Subject := TrimPrefix line "Subject: ".toList }
  else if line = [] ∧ st.Subject ≠ [] then
    { st with inBody := true }
  else if st.inBody then
    { st with bodyLines := st.bodyLines ++ [line] }
  else st

/-- Source: `parseEmailResponse` (main.go 142-164). -/
def parseEmailResponse (response : List Char) : DraftEmail × GoError :=
  let lines := Split response '\n'
  let st := lines.foldl parseStep { Subject := [], bodyLines := [], inBody := false }
  if st.Subject = [] then
    ({ Subject := st.Subject, Body := [], To := [] }, some "no subject found in response".toList)
  else
    ({ Subject := st.Subject, Body := Join st.bodyLines "\n".toList, To := [] }, none)

/-- Go `%d` of an `int`. -/
def fmtInt (n : Int) : List Char := (toString n).toList

/-- Source: `formatEmailDraftPrompt` (main.go 166-213). `formatDate` stands for
`Time.Format("2006-01-02")`; `interaction` is a pointer, `none` when nil. -/
def formatEmailDraftPrompt (formatDate : Time → List Char) (contact : Contact)
    (interaction : Option EmailInteraction) (posts : List BlogPost) : List Char :=
  let context1 : List Char :=
    match interaction with
    | some interaction =>
      "Last contact was on ".toList ++ formatDate interaction.LastContact ++
        ", with ".toList ++ fmtInt interaction.Count ++ " total interactions. ".toList
    | none => "No previous email interactions found. ".toList
  let context2 : List Char :=
    if 0 < posts.length then
      posts.foldl
        (fun acc post =>
          acc ++ ("- ".toList ++ post.Title ++ " (published ".toList ++
            formatDate post.Published ++ ")\n  ".toList ++ post.Link ++ "\n".toList))
        (context1 ++ "\n\nRecent blog posts:\n".toList)
    else context1
  let writingSample : List Char :=
    if contact.WritingSample ≠ [] then contact.WritingSample
    else "No writing sample available.".toList
  "Draft a friendly email to ".toList ++ contact.Name ++ " (".toList ++ contact.Email ++
    ").\n\nHere\x27s an example of how I write emails:\n---\n".toList ++ writingSample ++
    "\n---\n\nContext about our relationship: ".toList ++ context2 ++
    ("\n\nPlease write a natural, personal email that:\n" ++
     "1. Has an appropriate subject line\n" ++
     "2. Matches my writing style and tone from the example\n" ++
     "3. Includes a specific reference to our last interaction if available\n" ++
     "4. If they have recent blog posts, mention one that interested you\n" ++
     "5. Ends with a clear next step or question\n" ++
     "6. Uses similar greeting/closing styles as my example\n\n" ++
     "Format the response as:\nSubject: [subject]\n\n[email body]").toList

/-- Source: the contact lookup loop shared by `DraftEmail` (main.go 87-92) and
`CatchupWithBlog` (main.go 261-266): the first contact whose `Email` is `email`. -/
def findContact : List Contact → List Char → Option Contact
  | [], _ => none
  | contact :: rest, email => if contact.Email = email then some contact else findContact rest email

/-- Source: the interaction lookup loop of `DraftEmail` (main.go 103-108). -/
def findInteraction : List EmailInteraction → List Char → Option EmailInteraction
  | [], _ => none
  | interaction :: rest, «to» =>
    if interaction.Participant = «to» then some interaction else findInteraction rest «to»

/-- The collaborators of `DraftEmail`: the contacts that
`config.GetImportantContacts()` returns, the mail tool, the feed reader, the
model, the remote draft creation and the date formatter. -/
structure DraftEnv where
  contacts : List Contact
  GetInteractionsByParticipant : List Char → List EmailInteraction × GoError
  GetRecentPosts : List Char → Int → List BlogPost × GoError
  model : GenerativeModel
  draftsCreate : List Char → GoError
  formatDate : Time → List Char

/-- What a run of `DraftEmail` or `CatchupWithBlog` did to the outside: the
prompts sent through `Chat` and the raw messages handed to
`Users.Drafts.Create`, in order. -/
structure Effects where
  chats : List (List Char)
  created : List (List Char)
  deriving Repr, DecidableEq

/-- Source: `SocialAssistant.DraftEmail` (main.go 78-140). -/
def SocialAssistant.DraftEmail (env : DraftEnv) («to» : List Char) : Effects × Run (List Char × GoError) :=
  match findContact env.contacts «to» with
  | none =>
    (⟨[], []⟩, .returns ([], some ("contact not found in important contacts: ".toList ++ «to»)))
  | some targetContact =>
    let got := env.GetInteractionsByParticipant targetContact.Email
    match got.2 with
    | some err =>
      (⟨[], []⟩, .returns ([], some ("failed to get email interactions: ".toList ++ err)))
    | none =>
      let targetInteraction := findInteraction got.1 «to»
      let recentPosts : List BlogPost :=
        if targetContact.RSSFeed ≠ [] then
          let feed := env.GetRecentPosts targetContact.RSSFeed 3
          match feed.2 with
          | some _ => []
          | none => feed.1
        else []
      let prompt := formatEmailDraftPrompt env.formatDate targetContact targetInteraction recentPosts
      match SocialAssistant.Chat env.model prompt with
      | .panics => (⟨[prompt], []⟩, .panics)
      | .returns (_, some err) => (⟨[prompt], []⟩, .returns ([], some err))
      | .returns (response, none) =>
        let parsed := parseEmailResponse response
        match parsed.2 with
        | some err =>
          (⟨[prompt], []⟩, .returns ([], some ("failed to parse email response: ".toList ++ err)))
        | none =>
          let draft : Socialbot.DraftEmail := { parsed.1 with To := «to» }
          match SaveDraft env.draftsCreate draft with
          | some err =>
            (⟨[prompt], [draftMessage draft]⟩,
              .returns ([], some ("failed to save draft: ".toList ++ err)))
          | none =>
            (⟨[prompt], [draftMessage draft]⟩,
              .returns ("Draft saved to Gmail:\n\n".toList ++ response, none))

/-- Source: `formatCatchupPrompt` (main.go 300-319). `formatDate` stands for
`Time.Format("2006-01-02")`. -/
def formatCatchupPrompt (formatDate : Time → List Char) (contact : Contact)
    (posts : List BlogPost) : List Char :=
  let postsBuilder : List Char :=
    posts.foldl
      (fun acc post =>
        acc ++ ("- ".toList ++ post.Title ++ " (published ".toList ++
          formatDate post.Published ++ ")\n  ".toList ++ post.Link ++ "\n\n".toList))
      []
  "Summarize these recent blog posts from ".toList ++ contact.Name ++ ":\n\n".toList ++
    postsBuilder ++
    ("\nPlease provide:\n" ++
     "1. A brief overview of the main themes/topics covered\n" ++
     "2. Key insights or interesting points from each post\n" ++
     "3. Any actionable takeaways\n" ++
     "4. Potential discussion points I could bring up in a conversation with the author\n\n" ++
     "Keep the summary concise but informative.").toList

/-- The collaborators of `CatchupWithBlog`: the contacts that
`config.GetImportantContacts()` returns, the feed reader, the model, the date
formatter, the clock (`time.Now()`) and `Time.AddDate`. -/
structure CatchupEnv where
  contacts : List Contact
  GetRecentPosts : List Char → Int → List BlogPost × GoError
  model : GenerativeModel
  formatDate : Time → List Char
  now : Time
  AddDate : Time → Int → Int → Int → Time

/-- Source: the date filter loop of `CatchupWithBlog` (main.go 285-290): the
slice `recentPosts` after all fetched posts were visited. -/
def recentPostsLoop (weekAgo : Time) (posts : List BlogPost) : List BlogPost :=
  posts.foldl
    (fun recentPosts post =>
      if After post.Published weekAgo then recentPosts ++ [post] else recentPosts)
    []

/-- Source: `SocialAssistant.CatchupWithBlog` (main.go 257-298). -/
def SocialAssistant.CatchupWithBlog (env : CatchupEnv) (email : List Char) :
    Effects × Run (List Char × GoError) :=
  match findContact env.contacts email with
  | none =>
    (⟨[], []⟩, .returns ([], some ("contact not found in important contacts: ".toList ++ email)))
  | some targetContact =>
    if targetContact.RSSFeed = [] then
      (⟨[], []⟩,
        .returns ([], some ("no RSS feed configured for ".toList ++ targetContact.Name)))
    else
      let got := env.GetRecentPosts targetContact.RSSFeed 10
      match got.2 with
      | some err => (⟨[], []⟩, .returns ([], some ("failed to fetch RSS feed: ".toList ++ err)))
      | none =>
        let weekAgo := env.AddDate env.now 0 0 (-30)
        let recentPosts := recentPostsLoop weekAgo got.1
        if recentPosts.length = 0 then
          (⟨[], []⟩,
            .returns ("No posts from ".toList ++ targetContact.Name ++
              " in the last week.".toList, none))
        else
          let prompt := formatCatchupPrompt env.formatDate targetContact recentPosts
          (⟨[prompt], []⟩, SocialAssistant.Chat env.model prompt)

/-! ## Vocabulary of the statements about the message loop -/

/-- The messages that were fetched, in order: the listed messages whose
`Messages.Get` succeeded. -/
def fetchedMessages (messages : List (Option Message)) : List Message :=
  messages.reduceOption

/-- The number of messages whose derived sender is `s`. -/
def senderCount (timeParse : List Char → Except (List Char) Time) (ms : List Message)
    (s : List Char) : Int :=
  ((ms.countP (fun m => decide (msgFrom timeParse m = s)) : Nat) : Int)

/-- What the loop holds for the key `k` after the fetched messages `ms`: no
entry when no message has the non-empty sender `k`; otherwise the entry with
that participant, the number of those messages, and the latest of their dates. -/
def EntryFor (timeParse : List Char → Except (List Char) Time) (ms : List Message)
    (k : List Char) : Option EmailInteraction → Prop
  | none => ∀ m ∈ ms, msgFrom timeParse m = k → k = []
  | some r =>
    k ≠ [] ∧ r.Participant = k ∧ r.Name = [] ∧ r.Priority = 0 ∧
    r.Count = senderCount timeParse ms k ∧
    (∃ m ∈ ms, msgFrom timeParse m = k ∧ r.LastContact = msgDate timeParse m) ∧
    (∀ m ∈ ms, msgFrom timeParse m = k → msgDate timeParse m ≤ r.LastContact)

/-- A text is blank: it is empty or consists of white space only. -/
def isBlank (s : List Char) : Prop := ∀ c ∈ s, isSpace c = true

/-- The record that `filterAndEnrichInteractions` appends for an interaction
matched with `contact` (tools/email.go 115-117). -/
def enrich (contact : Contact) (interaction : EmailInteraction) : EmailInteraction :=
  { interaction with Name := contact.Name, Priority := contact.Priority }

/-! ## Sample data for the instances of the theorems -/

/-- A sample stand-in for `time.Parse(time.RFC1123Z, ·)`: it knows two dates. -/
def sampleParse (s : List Char) : Except (List Char) Time :=
  if s = "Mon, 01 Jan 2024 10:00:00 +0000".toList then .ok 100
  else if s = "Tue, 02 Jan 2024 10:00:00 +0000".toList then .ok 200
  else .error "cannot parse".toList

/-- Three messages of one sender (the second with an unparsable date), with one
failed fetch in between. -/
def sampleOneSender : List (Option Message) :=
  [ some ⟨[⟨"From".toList, "Ann <ann@x.org>".toList⟩,
           ⟨"Date".toList, "Mon, 01 Jan 2024 10:00:00 +0000".toList⟩]⟩,
    none,
    some ⟨[⟨"From".toList, "ann@x.org (Ann)".toList⟩, ⟨"Date".toList, "yesterday".toList⟩]⟩,
    some ⟨[⟨"Date".toList, "Tue, 02 Jan 2024 10:00:00 +0000".toList⟩,
           ⟨"From".toList, " ann@x.org".toList⟩]⟩ ]

/-- Messages of two senders, one message without a `From` header and one with
an unparsable date. -/
def sampleTwoSenders : List (Option Message) :=
  [ some ⟨[⟨"From".toList, "Ann <ann@x.org>".toList⟩,
           ⟨"Date".toList, "Tue, 02 Jan 2024 10:00:00 +0000".toList⟩]⟩,
    some ⟨[⟨"From".toList, "Bob <bob@y.org>".toList⟩, ⟨"Date".toList, "yesterday".toList⟩]⟩,
    some ⟨[⟨"Date".toList, "Mon, 01 Jan 2024 10:00:00 +0000".toList⟩]⟩,
    some ⟨[⟨"From".toList, "ann@x.org".toList⟩,
           ⟨"Date".toList, "Mon, 01 Jan 2024 10:00:00 +0000".toList⟩]⟩ ]

/-- Two contacts with distinct emails. -/
def sampleContacts : List Contact :=
  [ ⟨"ann@x.org".toList, "Ann".toList, 5, [], []⟩,
    ⟨"bob@y.org".toList, "Bob".toList, 2, [], []⟩ ]

/-- Two contacts with the same email. -/
def sampleDuplicates : List Contact :=
  [ ⟨"ann@x.org".toList, "First".toList, 1, [], []⟩,
    ⟨"ann@x.org".toList, "Second".toList, 2, [], []⟩ ]

/-- Three aggregated interactions; the second is with nobody on the lists. -/
def sampleInteractions : List EmailInteraction :=
  [ ⟨"ann@x.org".toList, [], 0, 200, 2⟩,
    ⟨"zed@z.org".toList, [], 0, 100, 1⟩,
    ⟨"bob@y.org".toList, [], 0, 0, 1⟩ ]

/-- A model whose token count fails (nil response, non-nil error) while its
generation succeeds with the single part "Hello". -/
def sampleModelCountFails : GenerativeModel :=
  { CountTokens := fun _ => (none, some "rpc error: code = Unavailable".toList)
    GenerateContent := fun _ => (some ⟨[some ⟨some ⟨[⟨"Hello".toList⟩]⟩⟩]⟩, none) }

/-- A model whose token count succeeds and whose generation always answers with
a text that has no subject line. -/
def sampleModelNoSubject : GenerativeModel :=
  { CountTokens := fun _ => (some ⟨12⟩, none)
    GenerateContent := fun _ =>
      (some ⟨[some ⟨some ⟨[⟨"Dear Ann,\n\nHow are you?".toList⟩]⟩⟩]⟩, none) }

/-- Collaborators for a run of `DraftEmail`: the sample contacts, a mail tool
that finds one interaction, no feeds, and the model without subject line. -/
def sampleDraftEnv : DraftEnv :=
  { contacts := sampleContacts
    GetInteractionsByParticipant := fun _ => ([⟨"ann@x.org".toList, "Ann".toList, 5, 200, 2⟩], none)
    GetRecentPosts := fun _ _ => ([], none)
    model := sampleModelNoSubject
    draftsCreate := fun _ => none
    formatDate := fun _ => "2024-01-02".toList }

/-- A model whose answer depends on the prompt: to the prompt "ping" it answers
with a subject line, to every other prompt with a text that has none. -/
def sampleModelVarying : GenerativeModel :=
  { CountTokens := fun _ => (some ⟨12⟩, none)
    GenerateContent := fun prompt =>
      if prompt = "ping".toList then
        (some ⟨[some ⟨some ⟨[⟨"Subject: Pong\n\nBody".toList⟩]⟩⟩]⟩, none)
      else
        (some ⟨[some ⟨some ⟨[⟨"Dear Ann,\n\nHow are you?".toList⟩]⟩⟩]⟩, none) }

/-- The sample collaborators of `DraftEmail` with the prompt-dependent model. -/
def sampleDraftEnvVarying : DraftEnv :=
  { sampleDraftEnv with model := sampleModelVarying }

/-- A contact with a configured feed. -/
def sampleFeedContact : Contact :=
  ⟨"ann@x.org".toList, "Ann".toList, 5, "https://ann.example/feed.xml".toList, []⟩

/-- A model whose token count succeeds and whose generation answers
"Summary". -/
def sampleModelSummary : GenerativeModel :=
  { CountTokens := fun _ => (some ⟨40⟩, none)
    GenerateContent := fun _ => (some ⟨[some ⟨some ⟨[⟨"Summary".toList⟩]⟩⟩]⟩, none) }

/-- Three fetched posts, published at the instants 950, 900 (exactly thirty
days before the sample clock) and 990. -/
def samplePosts : List BlogPost :=
  [ ⟨"Old news".toList, "https://ann.example/1".toList, 950⟩,
    ⟨"Older".toList, "https://ann.example/0".toList, 900⟩,
    ⟨"Fresh".toList, "https://ann.example/2".toList, 990⟩ ]

/-- Collaborators for a run of `CatchupWithBlog`: the clock reads 930 with
days one unit long, so thirty days before now is the instant 900; the feed
reader returns `posts`. -/
def sampleCatchupEnv (posts : List BlogPost) : CatchupEnv :=
  { contacts := [sampleFeedContact]
    GetRecentPosts := fun _ _ => (posts, none)
    model := sampleModelSummary
    formatDate := fun _ => "2024-01-02".toList
    now := 930
    AddDate := fun t _ _ days => t + days }

/-! ## Lemmas on the string primitives -/

theorem indexFrom_single_not_mem (c : Char) (s : List Char) (i : Nat) (h : c ∉ s) :
    indexFrom [c] s i = -1 := by
  induction s generalizing i with
  | nil => simp [indexFrom, List.isPrefixOf]
  | cons d ds ih =>
    simp only [List.mem_cons, not_or] at h
    have hd : ¬ (c = d) := h.1
    simp [indexFrom, List.isPrefixOf, hd, ih (i + 1) h.2]

theorem indexFrom_single_append (c : Char) (u v : List Char) (i : Nat) (h : c ∉ u) :
    indexFrom [c] (u ++ c :: v) i = ((i + u.length : Nat) : Int) := by
  induction u generalizing i with
  | nil => simp [indexFrom, List.isPrefixOf]
  | cons d ds ih =>
    simp only [List.mem_cons, not_or] at h
    have hd : ¬ (c = d) := h.1
    simp [indexFrom, List.isPrefixOf, hd, ih (i + 1) h.2]
    omega

theorem indexFrom_pair_append (c d : Char) (u v : List Char) (i : Nat) (h : c ∉ u) :
    indexFrom [c, d] (u ++ c :: d :: v) i = ((i + u.length : Nat) : Int) := by
  induction u generalizing i with
  | nil => simp [indexFrom, List.isPrefixOf]
  | cons e es ih =>
    simp only [List.mem_cons, not_or] at h
    have hd : ¬ (c = e) := h.1
    simp [indexFrom, List.isPrefixOf, hd, ih (i + 1) h.2]
    omega

theorem indexFrom_single_nonneg_iff (c : Char) (s : List Char) (i : Nat) :
    0 ≤ indexFrom [c] s i ↔ c ∈ s := by
  induction s generalizing i with
  | nil => simp [indexFrom, List.isPrefixOf]
  | cons d ds ih =>
    by_cases hd : c = d
    · subst hd; simp [indexFrom, List.isPrefixOf]
    · simp [indexFrom, List.isPrefixOf, hd, ih (i + 1)]

theorem Contains_single_iff (c : Char) (s : List Char) : Contains s [c] = true ↔ c ∈ s := by
  simp [Contains, Index, indexFrom_single_nonneg_iff]

theorem dropWhile_isSpace_of_head (a : List Char)
    (h : ∀ c, a.head? = some c → isSpace c = false) : a.dropWhile isSpace = a := by
  cases a with
  | nil => rfl
  | cons c t => simp [List.dropWhile, h c rfl]

theorem TrimSpace_eq_self (a : List Char)
    (hh : ∀ c, a.head? = some c → isSpace c = false)
    (hl : ∀ c, a.getLast? = some c → isSpace c = false) : TrimSpace a = a := by
  unfold TrimSpace
  rw [dropWhile_isSpace_of_head a hh, dropWhile_isSpace_of_head a.reverse (by simpa using hl)]
  simp

theorem TrimSpace_eq_self_of_no_space (a : List Char) (h : ∀ c ∈ a, isSpace c = false) :
    TrimSpace a = a := by
  apply TrimSpace_eq_self
  · intro c hc; exact h c (List.mem_of_mem_head? hc)
  · intro c hc; exact h c (List.mem_of_mem_getLast? hc)

theorem mem_dropWhile_isSpace (s : List Char) (c : Char) (hc : c ∈ s)
    (hns : ¬ isSpace c = true) : c ∈ s.dropWhile isSpace := by
  induction s with
  | nil => cases hc
  | cons d ds ih =>
    by_cases hd : isSpace d = true
    · simp only [List.dropWhile_cons_of_pos hd]
      rcases List.mem_cons.1 hc with rfl | h'
      · exact absurd hd hns
      · exact ih h'
    · simp only [List.dropWhile_cons_of_neg hd]; exact hc

theorem TrimSpace_eq_nil_iff (s : List Char) :
    TrimSpace s = [] ↔ ∀ c ∈ s, isSpace c = true := by
  unfold TrimSpace
  rw [List.reverse_eq_nil_iff, List.dropWhile_eq_nil_iff]
  constructor
  · intro h c hc
    by_contra hns
    exact hns (h c (by simpa using mem_dropWhile_isSpace s c hc hns))
  · intro h c hc
    have : c ∈ s.dropWhile isSpace := by simpa using hc
    exact h c ((List.dropWhile_sublist _).subset this)

/-! ## The address extractor -/

/-- The angle-bracket branch of `extractEmail`: when the first `<` of the header
is at position `|p|` and the first `>` after it closes the text `a`, the result
is the trimmed `a`. -/
theorem extractEmail_angle_eq (p a rest : List Char) (hp : '<' ∉ p) (hgt : '>' ∉ a) :
    extractEmail (p ++ '<' :: (a ++ '>' :: rest)) = TrimSpace a := by
  have hstart : Index (p ++ '<' :: (a ++ '>' :: rest)) ['<'] = (p.length : Int) := by
    simpa [Index] using indexFrom_single_append '<' p (a ++ '>' :: rest) 0 hp
  have hend : Index (sliceFrom (p ++ '<' :: (a ++ '>' :: rest)) (p.length : Int)) ['>']
      = ((a.length + 1 : Nat) : Int) := by
    have h1 : sliceFrom (p ++ '<' :: (a ++ '>' :: rest)) (p.length : Int)
        = ('<' :: a) ++ '>' :: rest := by
      simp [sliceFrom]
    have h2 : '>' ∉ '<' :: a := by
      simp only [List.mem_cons, not_or]; exact ⟨by decide, hgt⟩
    rw [h1]
    simpa [Index, Nat.add_comm] using indexFrom_single_append '>' ('<' :: a) rest 0 h2
  have hslice : slice (p ++ '<' :: (a ++ '>' :: rest)) ((p.length : Int) + 1)
      ((p.length : Int) + ((a.length + 1 : Nat) : Int)) = a := by
    have e1 : ((p.length : Int) + 1).toNat = p.length + 1 := by omega
    have e2 : ((p.length : Int) + ((a.length + 1 : Nat) : Int)).toNat
        = p.length + (a.length + 1) := by omega
    unfold slice
    rw [e1, e2, List.take_append, List.drop_append]
    simp [List.take_append]
  unfold extractEmail
  have h0 : (0 : Int) ≤ (p.length : Int) := Int.natCast_nonneg _
  have h1 : (0 : Int) ≤ ((a.length + 1 : Nat) : Int) := Int.natCast_nonneg _
  simp only [hstart, hend, hslice, if_pos h0, if_pos h1]

/-- The parenthesis branch of `extractEmail`: when no `<` of the header is
followed by a `>` and the first instance of " (" is at position `|a|`, the result
is the trimmed `a`. -/
theorem extractEmail_paren_eq (a n : List Char) (hsp : ' ' ∉ a) (hlt : '<' ∉ a)
    (hn : ∀ u v, n = u ++ '<' :: v → '>' ∉ v) :
    extractEmail (a ++ ' ' :: '(' :: (n ++ [')'])) = TrimSpace a := by
  have hfmt1 : (if 0 ≤ Index (a ++ ' ' :: '(' :: (n ++ [')'])) ['<'] then
        if 0 ≤ Index (sliceFrom (a ++ ' ' :: '(' :: (n ++ [')']))
              (Index (a ++ ' ' :: '(' :: (n ++ [')'])) ['<'])) ['>'] then
          some (TrimSpace (slice (a ++ ' ' :: '(' :: (n ++ [')']))
            (Index (a ++ ' ' :: '(' :: (n ++ [')'])) ['<'] + 1)
            (Index (a ++ ' ' :: '(' :: (n ++ [')'])) ['<'] +
              Index (sliceFrom (a ++ ' ' :: '(' :: (n ++ [')']))
                (Index (a ++ ' ' :: '(' :: (n ++ [')'])) ['<'])) ['>'])))
        else none
      else none) = none := by
    by_cases hmem : '<' ∈ n
    · obtain ⟨u, v, huv, hu⟩ := List.eq_append_cons_of_mem hmem
      have hgt : '>' ∉ v := hn u v huv
      have hpre : '<' ∉ a ++ ' ' :: '(' :: u := by
        simp only [List.mem_append, List.mem_cons, not_or]
        exact ⟨hlt, by decide, by decide, hu⟩
      have hs : a ++ ' ' :: '(' :: (n ++ [')']) = (a ++ ' ' :: '(' :: u) ++ '<' :: (v ++ [')']) := by
        simp [huv]
      have hstart : Index (a ++ ' ' :: '(' :: (n ++ [')'])) ['<']
          = ((a ++ ' ' :: '(' :: u).length : Int) := by
        rw [hs]
        simpa [Index] using indexFrom_single_append '<' (a ++ ' ' :: '(' :: u) (v ++ [')']) 0 hpre
      have hend : Index (sliceFrom (a ++ ' ' :: '(' :: (n ++ [')']))
          ((a ++ ' ' :: '(' :: u).length : Int)) ['>'] = -1 := by
        rw [hs]
        have : sliceFrom ((a ++ ' ' :: '(' :: u) ++ '<' :: (v ++ [')']))
            ((a ++ ' ' :: '(' :: u).length : Int) = '<' :: (v ++ [')']) := by
          unfold sliceFrom
          rw [Int.toNat_natCast, List.drop_left]
        rw [this]
        apply indexFrom_single_not_mem
        simp only [List.mem_cons, List.mem_append, not_or, List.mem_singleton, List.not_mem_nil,
          or_false]
        exact ⟨by decide, hgt, by decide⟩
      rw [hstart, hend]
      simp
    · have hno : '<' ∉ a ++ ' ' :: '(' :: (n ++ [')']) := by
        simp only [List.mem_append, List.mem_cons, not_or, List.mem_singleton, List.not_mem_nil,
          or_false]
        exact ⟨hlt, by decide, by decide, hmem, by decide⟩
      have hstart : Index (a ++ ' ' :: '(' :: (n ++ [')'])) ['<'] = -1 :=
        indexFrom_single_not_mem _ _ _ hno
      rw [hstart]
      simp
  have hend : Index (a ++ ' ' :: '(' :: (n ++ [')'])) [' ', '('] = (a.length : Int) := by
    simpa [Index] using indexFrom_pair_append ' ' '(' a (n ++ [')']) 0 hsp
  have hslice : slice (a ++ ' ' :: '(' :: (n ++ [')'])) 0 (a.length : Int) = a := by
    simp [slice]
  unfold extractEmail
  simp only [hfmt1, hend, hslice, if_pos (Int.natCast_nonneg a.length)]

/-- C1 (as stated) fails: with the display name "J <x> " in front of
`<a@b.com>`, the address satisfies every condition of the claim, yet the
extractor returns "x", the text between the first `<` and the first `>` after
it. -/
theorem C1_counterexample :
    ("a@b.com".toList ≠ [] ∧ '<' ∉ "a@b.com".toList ∧ '>' ∉ "a@b.com".toList ∧
      (∀ c, "a@b.com".toList.head? = some c → isSpace c = false) ∧
      (∀ c, "a@b.com".toList.getLast? = some c → isSpace c = false)) ∧
    extractEmail ("J <x> ".toList ++ "<".toList ++ "a@b.com".toList ++ ">".toList) = "x".toList ∧
    extractEmail ("J <x> ".toList ++ "<".toList ++ "a@b.com".toList ++ ">".toList)
      ≠ "a@b.com".toList := by
  refine ⟨⟨by decide, by decide, by decide, ?_, ?_⟩, by decide, by decide⟩
  · intro c hc
    have : c = 'a' := by simpa using hc.symm
    subst this; decide
  · intro c hc
    have : c = 'm' := by simpa using hc.symm
    subst this; decide

/-- C1 (amended): for every address text `a` (non-empty, without `<` and `>`,
without leading or trailing white space) and every leading display-name text
`p` that contains no `<`, `extractEmail (p ++ "<" ++ a ++ ">")` is exactly
`a`. -/
theorem C1_extractEmail_angle (a p : List Char) (_hne : a ≠ []) (_hlt : '<' ∉ a)
    (hgt : '>' ∉ a)
    (hhead : ∀ c, a.head? = some c → isSpace c = false)
    (hlast : ∀ c, a.getLast? = some c → isSpace c = false)
    (hp : '<' ∉ p) :
    extractEmail (p ++ "<".toList ++ a ++ ">".toList) = a := by
  have h := extractEmail_angle_eq p a [] hp hgt
  rw [TrimSpace_eq_self a hhead hlast] at h
  simpa using h

/-- C1 (amended) at the header "John Doe <a@b.com>". -/
theorem C1_extractEmail_angle_witness :
    extractEmail "John Doe <a@b.com>".toList = "a@b.com".toList :=
  C1_extractEmail_angle "a@b.com".toList "John Doe ".toList (by decide) (by decide) (by decide)
    (by intro c hc; have : c = 'a' := by simpa using hc.symm
        subst this; decide)
    (by intro c hc; have : c = 'm' := by simpa using hc.symm
        subst this; decide)
    (by decide)

/-- C2 (as stated) fails: with the display name "<x>" the address satisfies
every condition of the claim, yet the extractor takes the angle-bracket branch
and returns "x". -/
theorem C2_counterexample :
    ("a@b.com".toList ≠ [] ∧ (∀ c ∈ "a@b.com".toList, isSpace c = false) ∧
      '<' ∉ "a@b.com".toList ∧ '>' ∉ "a@b.com".toList ∧ '(' ∉ "a@b.com".toList) ∧
    extractEmail ("a@b.com".toList ++ " (".toList ++ "<x>".toList ++ ")".toList) = "x".toList ∧
    extractEmail ("a@b.com".toList ++ " (".toList ++ "<x>".toList ++ ")".toList)
      ≠ "a@b.com".toList := by
  refine ⟨⟨by decide, by decide, by decide, by decide, by decide⟩, by decide, by decide⟩

/-- C2 (amended): for every address text `a` (non-empty, without white space,
`<`, `>` and `(`) and every display-name text `n` in which no `<` is followed
later by a `>`, `extractEmail (a ++ " (" ++ n ++ ")")` is exactly `a`. -/
theorem C2_extractEmail_paren (a n : List Char) (_hne : a ≠ [])
    (hsp : ∀ c ∈ a, isSpace c = false) (hlt : '<' ∉ a) (_hgt : '>' ∉ a) (_hpar : '(' ∉ a)
    (hn : ∀ u v, n = u ++ '<' :: v → '>' ∉ v) :
    extractEmail (a ++ " (".toList ++ n ++ ")".toList) = a := by
  have hblank : ' ' ∉ a := fun hmem => by
    have := hsp ' ' hmem
    exact absurd this (by decide)
  have h := extractEmail_paren_eq a n hblank hlt hn
  rw [TrimSpace_eq_self_of_no_space a hsp] at h
  simpa using h

/-- C2 (amended) at the header "a@b.com (Display Name)". -/
theorem C2_extractEmail_paren_witness :
    extractEmail "a@b.com (Display Name)".toList = "a@b.com".toList :=
  C2_extractEmail_paren "a@b.com".toList "Display Name".toList (by decide) (by decide)
    (by decide) (by decide) (by decide)
    (by
      intro u v h hv
      have hmem : '<' ∈ "Display Name".toList := by rw [h]; simp
      exact absurd hmem (by decide))

/-! ## The map model -/

theorem mapGet_mapSet {V : Type} (m : GoMap V) (k : List Char) (v : V) (k' : List Char) :
    mapGet (mapSet m k v) k' = if k = k' then some v else mapGet m k' := by
  induction m with
  | nil => simp [mapSet, mapGet]
  | cons e rest ih =>
    obtain ⟨k0, v0⟩ := e
    by_cases h0 : k0 = k
    · subst h0
      by_cases h1 : k0 = k'
      · simp [mapSet, mapGet, h1]
      · simp [mapSet, mapGet, h1]
    · by_cases h1 : k0 = k'
      · subst h1
        simp [mapSet, mapGet, h0, Ne.symm h0]
      · simp [mapSet, mapGet, h0, h1, ih]

theorem keys_mapSet {V : Type} (m : GoMap V) (k : List Char) (v : V) :
    (mapSet m k v).map Prod.fst =
      if k ∈ m.map Prod.fst then m.map Prod.fst else m.map Prod.fst ++ [k] := by
  induction m with
  | nil => simp [mapSet]
  | cons e rest ih =>
    obtain ⟨k0, v0⟩ := e
    by_cases h0 : k0 = k
    · subst h0
      simp only [mapSet, if_true, List.map_cons, List.mem_cons, true_or]
    · have h0' : ¬ k = k0 := fun h => h0 h.symm
      by_cases hin : k ∈ rest.map Prod.fst
      · simp only [mapSet, if_neg h0, List.map_cons, ih, if_pos hin, List.mem_cons, hin, or_true,
          if_true]
      · simp only [mapSet, if_neg h0, List.map_cons, ih, if_neg hin, List.mem_cons, hin, or_false,
          if_neg h0', List.cons_append, if_false]

theorem keys_nodup_mapSet {V : Type} (m : GoMap V) (k : List Char) (v : V)
    (h : (m.map Prod.fst).Nodup) : ((mapSet m k v).map Prod.fst).Nodup := by
  rw [keys_mapSet]
  split
  · exact h
  · rename_i hin
    rw [List.nodup_append]
    refine ⟨h, List.nodup_singleton k, ?_⟩
    intro a ha hb
    have : a = k := by simpa using hb
    subst this
    exact hin ha

theorem mapGet_of_mem {V : Type} (m : GoMap V) (k : List Char) (v : V)
    (hnd : (m.map Prod.fst).Nodup) (h : (k, v) ∈ m) : mapGet m k = some v := by
  induction m with
  | nil => cases h
  | cons e rest ih =>
    obtain ⟨k0, v0⟩ := e
    simp only [List.map_cons, List.nodup_cons] at hnd
    rcases List.mem_cons.1 h with heq | hmem
    · cases heq
      simp [mapGet]
    · have hne : ¬ k0 = k := by
        intro hk
        subst hk
        exact hnd.1 (List.mem_map.2 ⟨(k0, v), hmem, rfl⟩)
      simp [mapGet, hne, ih hnd.2 hmem]

theorem mem_of_mapGet {V : Type} (m : GoMap V) (k : List Char) (v : V)
    (h : mapGet m k = some v) : (k, v) ∈ m := by
  induction m with
  | nil => simp [mapGet] at h
  | cons e rest ih =>
    obtain ⟨k0, v0⟩ := e
    by_cases h0 : k0 = k
    · subst h0
      simp only [mapGet, if_true, Option.some.injEq] at h
      subst h
      exact List.mem_cons_self _ _
    · simp only [mapGet, if_neg h0] at h
      exact List.mem_cons_of_mem _ (ih h)

/-! ## The message loop of `GetRecentInteractions` -/

theorem senderCount_append (tp : List Char → Except (List Char) Time) (ms : List Message)
    (m : Message) (k : List Char) :
    senderCount tp (ms ++ [m]) k = senderCount tp ms k + (if msgFrom tp m = k then 1 else 0) := by
  unfold senderCount
  rw [List.countP_append]
  by_cases h : msgFrom tp m = k
  · simp [List.countP_cons, h]
  · simp [List.countP_cons, h]

theorem senderCount_eq_zero (tp : List Char → Except (List Char) Time) (ms : List Message)
    (k : List Char) (h : ∀ m ∈ ms, msgFrom tp m ≠ k) : senderCount tp ms k = 0 := by
  unfold senderCount
  have : ms.countP (fun m => decide (msgFrom tp m = k)) = 0 := by
    rw [List.countP_eq_zero]
    intro m hm
    simpa using h m hm
  simp [this]

theorem EntryFor_append_other (tp : List Char → Except (List Char) Time) (ms : List Message)
    (m : Message) (k : List Char) (o : Option EmailInteraction)
    (hk : msgFrom tp m = k → k = []) (h : EntryFor tp ms k o) :
    EntryFor tp (ms ++ [m]) k o := by
  cases o with
  | none =>
    intro m' hm' hf
    rcases List.mem_append.1 hm' with h1 | h1
    · exact h m' h1 hf
    · have : m' = m := by simpa using h1
      subst this
      exact hk hf
  | some r =>
    obtain ⟨hne, hp, hn, hpr, hc, ⟨w, hw, hwf, hwd⟩, hmax⟩ := h
    have hmk : ¬ msgFrom tp m = k := fun hf => hne (hk hf)
    refine ⟨hne, hp, hn, hpr, ?_, ⟨w, List.mem_append_left _ hw, hwf, hwd⟩, ?_⟩
    · rw [senderCount_append, if_neg hmk, hc]; simp
    · intro m' hm' hf
      rcases List.mem_append.1 hm' with h1 | h1
      · exact hmax m' h1 hf
      · have : m' = m := by simpa using h1
        subst this
        exact absurd hf hmk

theorem EntryFor_append_new (tp : List Char → Except (List Char) Time) (ms : List Message)
    (m : Message) (hne : msgFrom tp m ≠ []) (h : EntryFor tp ms (msgFrom tp m) none) :
    EntryFor tp (ms ++ [m]) (msgFrom tp m)
      (some { Participant := msgFrom tp m, Name := [], Priority := 0,
              LastContact := msgDate tp m, Count := 1 }) := by
  have hnone : ∀ m' ∈ ms, msgFrom tp m' ≠ msgFrom tp m := fun m' hm' hf => hne (h m' hm' hf)
  refine ⟨hne, rfl, rfl, rfl, ?_, ⟨m, by simp, rfl, rfl⟩, ?_⟩
  · rw [senderCount_append, if_pos rfl, senderCount_eq_zero tp ms _ hnone]; simp
  · intro m' hm' hf
    rcases List.mem_append.1 hm' with h1 | h1
    · exact absurd hf (hnone m' h1)
    · have : m' = m := by simpa using h1
      subst this
      exact le_refl _

theorem EntryFor_append_seen (tp : List Char → Except (List Char) Time) (ms : List Message)
    (m : Message) (r : EmailInteraction) (h : EntryFor tp ms (msgFrom tp m) (some r)) :
    EntryFor tp (ms ++ [m]) (msgFrom tp m)
      (some { r with
              Count := r.Count + 1
              LastContact := if After (msgDate tp m) r.LastContact then msgDate tp m
                             else r.LastContact }) := by
  obtain ⟨hne, hp, hn, hpr, hc, ⟨w, hw, hwf, hwd⟩, hmax⟩ := h
  refine ⟨hne, hp, hn, hpr, ?_, ?_, ?_⟩
  · rw [senderCount_append, if_pos rfl, ← hc]
  · by_cases ha : After (msgDate tp m) r.LastContact = true
    · exact ⟨m, by simp, rfl, by simp [ha]⟩
    · exact ⟨w, List.mem_append_left _ hw, hwf, by simp only [ha]; simpa using hwd⟩
  · intro m' hm' hf
    by_cases ha : After (msgDate tp m) r.LastContact = true
    · have hlt : r.LastContact < msgDate tp m := by simpa [After] using ha
      simp only [ha, if_true]
      rcases List.mem_append.1 hm' with h1 | h1
      · exact le_trans (hmax m' h1 hf) (le_of_lt hlt)
      · have : m' = m := by simpa using h1
        subst this
        exact le_refl _
    · have hle : msgDate tp m ≤ r.LastContact := by simpa [After] using ha
      simp only [ha]
      rcases List.mem_append.1 hm' with h1 | h1
      · exact hmax m' h1 hf
      · have : m' = m := by simpa using h1
        subst this
        exact hle

/-- The loop invariant: after any listed messages, the keys of the map are
pairwise distinct and the map holds, for every key, the entry described by
`EntryFor` on the messages fetched so far. -/
theorem interactionsLoop_inv (tp : List Char → Except (List Char) Time)
    (rs : List (Option Message)) :
    ((interactionsLoop tp rs).map Prod.fst).Nodup ∧
    ∀ k, EntryFor tp (fetchedMessages rs) k (mapGet (interactionsLoop tp rs) k) := by
  induction rs using List.reverseRecOn with
  | nil =>
    refine ⟨by simp [interactionsLoop], ?_⟩
    intro k m hm
    simp [fetchedMessages] at hm
  | append_singleton l a ih =>
    obtain ⟨hnd, hent⟩ := ih
    have hloop : interactionsLoop tp (l ++ [a])
        = interactionsStep tp (interactionsLoop tp l) a := by
      simp [interactionsLoop, List.foldl_append]
    rw [hloop]
    cases a with
    | none =>
      have hf : fetchedMessages (l ++ [none]) = fetchedMessages l := by
        simp [fetchedMessages, List.reduceOption_append]
      rw [hf]
      exact ⟨hnd, hent⟩
    | some m =>
      have hf : fetchedMessages (l ++ [some m]) = fetchedMessages l ++ [m] := by
        simp [fetchedMessages, List.reduceOption_append]
      rw [hf]
      by_cases hemp : msgFrom tp m = []
      · have hstep : interactionsStep tp (interactionsLoop tp l) (some m)
            = interactionsLoop tp l := by
          have : (scanHeaders tp m.Headers).1 = [] := hemp
          simp [interactionsStep, this]
        rw [hstep]
        refine ⟨hnd, fun k => EntryFor_append_other tp _ m k _ ?_ (hent k)⟩
        intro hk
        rw [← hk, hemp]
      · have hemp' : ¬ (scanHeaders tp m.Headers).1 = [] := hemp
        cases hget : mapGet (interactionsLoop tp l) (msgFrom tp m) with
        | none =>
          have hget' : mapGet (interactionsLoop tp l) (scanHeaders tp m.Headers).1 = none := hget
          have hstep : interactionsStep tp (interactionsLoop tp l) (some m)
              = mapSet (interactionsLoop tp l) (msgFrom tp m)
                  { Participant := msgFrom tp m, Name := [], Priority := 0,
                    LastContact := msgDate tp m, Count := 1 } := by
            simp only [interactionsStep, if_neg hemp', hget']
            rfl
          rw [hstep]
          refine ⟨keys_nodup_mapSet _ _ _ hnd, fun k => ?_⟩
          rw [mapGet_mapSet]
          by_cases hk : msgFrom tp m = k
          · subst hk
            rw [if_pos rfl]
            have h0 := hent (msgFrom tp m)
            rw [hget] at h0
            exact EntryFor_append_new tp _ m hemp h0
          · rw [if_neg hk]
            exact EntryFor_append_other tp _ m k _ (fun h => absurd h hk) (hent k)
        | some r =>
          have hget' : mapGet (interactionsLoop tp l) (scanHeaders tp m.Headers).1 = some r := hget
          have hstep : interactionsStep tp (interactionsLoop tp l) (some m)
              = mapSet (interactionsLoop tp l) (msgFrom tp m)
                  { r with
                    Count := r.Count + 1
                    LastContact := if After (msgDate tp m) r.LastContact then msgDate tp m
                                   else r.LastContact } := by
            simp only [interactionsStep, if_neg hemp', hget']
            rfl
          rw [hstep]
          refine ⟨keys_nodup_mapSet _ _ _ hnd, fun k => ?_⟩
          rw [mapGet_mapSet]
          by_cases hk : msgFrom tp m = k
          · subst hk
            rw [if_pos rfl]
            have h0 := hent (msgFrom tp m)
            rw [hget] at h0
            exact EntryFor_append_seen tp _ m r h0
          · rw [if_neg hk]
            exact EntryFor_append_other tp _ m k _ (fun h => absurd h hk) (hent k)

/-- Every record that the range over the final map visits is the entry of its
own participant. -/
theorem entryFor_of_mem_result (tp : List Char → Except (List Char) Time)
    (messages : List (Option Message)) (result : List EmailInteraction)
    (hres : rangeValues (interactionsLoop tp messages) result)
    (r : EmailInteraction) (hr : r ∈ result) :
    (r.Participant, r) ∈ interactionsLoop tp messages ∧
    EntryFor tp (fetchedMessages messages) r.Participant (some r) := by
  obtain ⟨hnd, hent⟩ := interactionsLoop_inv tp messages
  have hmem : r ∈ (interactionsLoop tp messages).map Prod.snd := hres.mem_iff.1 hr
  obtain ⟨⟨k, r'⟩, hkr, hr'⟩ := List.mem_map.1 hmem
  simp only at hr'
  subst hr'
  have hget := mapGet_of_mem _ k r' hnd hkr
  have he := hent k
  rw [hget] at he
  have hp : r'.Participant = k := he.2.1
  rw [hp]
  exact ⟨hkr, he⟩

/-- Every fetched message with a non-empty sender has its record among those
that the range over the final map visits. -/
theorem result_of_sender (tp : List Char → Except (List Char) Time)
    (messages : List (Option Message)) (result : List EmailInteraction)
    (hres : rangeValues (interactionsLoop tp messages) result)
    (m : Message) (hm : m ∈ fetchedMessages messages) (hne : msgFrom tp m ≠ []) :
    ∃ r ∈ result, r.Participant = msgFrom tp m ∧
      EntryFor tp (fetchedMessages messages) (msgFrom tp m) (some r) := by
  obtain ⟨_, hent⟩ := interactionsLoop_inv tp messages
  have he := hent (msgFrom tp m)
  cases hget : mapGet (interactionsLoop tp messages) (msgFrom tp m) with
  | none =>
    rw [hget] at he
    exact absurd (he m hm rfl) hne
  | some r =>
    rw [hget] at he
    have hin : r ∈ (interactionsLoop tp messages).map Prod.snd :=
      List.mem_map.2 ⟨(msgFrom tp m, r), mem_of_mapGet _ _ _ hget, rfl⟩
    exact ⟨r, hres.mem_iff.2 hin, he.2.1, he⟩

theorem participants_eq_keys (tp : List Char → Except (List Char) Time)
    (messages : List (Option Message)) :
    ((interactionsLoop tp messages).map Prod.snd).map (fun r => r.Participant)
      = (interactionsLoop tp messages).map Prod.fst := by
  obtain ⟨hnd, hent⟩ := interactionsLoop_inv tp messages
  rw [List.map_map]
  apply List.map_congr_left
  intro e he
  obtain ⟨k, r⟩ := e
  have hget := mapGet_of_mem _ k r hnd he
  have h := hent k
  rw [hget] at h
  exact h.2.1

theorem result_participants_nodup (tp : List Char → Except (List Char) Time)
    (messages : List (Option Message)) (result : List EmailInteraction)
    (hres : rangeValues (interactionsLoop tp messages) result) :
    (result.map (fun r => r.Participant)).Nodup := by
  have hperm : (result.map (fun r => r.Participant)).Perm
      (((interactionsLoop tp messages).map Prod.snd).map (fun r => r.Participant)) :=
    hres.map _
  rw [hperm.nodup_iff, participants_eq_keys]
  exact (interactionsLoop_inv tp messages).1

/-- C3: for every sequence of listed messages of which at least one was
fetched, when every fetched message has the same non-empty sender `s`, every
order of ranging over the final map gives exactly one record; its participant
is `s`, its count is the number of fetched messages, and its last contact is
the maximum of their dates: the date of one of them, and no earlier than the
date of any of them. -/
theorem C3_single_sender (tp : List Char → Except (List Char) Time)
    (messages : List (Option Message)) (s : List Char) (result : List EmailInteraction)
    (hne : fetchedMessages messages ≠ []) (hs : s ≠ [])
    (hall : ∀ m ∈ fetchedMessages messages, msgFrom tp m = s)
    (hres : rangeValues (interactionsLoop tp messages) result) :
    ∃ r, result = [r] ∧ r.Participant = s ∧
      r.Count = ((fetchedMessages messages).length : Int) ∧
      (∃ m ∈ fetchedMessages messages, r.LastContact = msgDate tp m) ∧
      (∀ m ∈ fetchedMessages messages, msgDate tp m ≤ r.LastContact) := by
  obtain ⟨m0, hm0⟩ := List.exists_mem_of_ne_nil _ hne
  have hs0 : msgFrom tp m0 ≠ [] := by rw [hall m0 hm0]; exact hs
  obtain ⟨r, hr, hp, he⟩ := result_of_sender tp messages result hres m0 hm0 hs0
  rw [hall m0 hm0] at hp he
  -- every record has participant `s`
  have hallp : ∀ x ∈ result.map (fun r => r.Participant), x = s := by
    intro x hx
    obtain ⟨r', hr', rfl⟩ := List.mem_map.1 hx
    obtain ⟨_, he'⟩ := entryFor_of_mem_result tp messages result hres r' hr'
    obtain ⟨_, _, _, _, _, ⟨w, hw, hwf, _⟩, _⟩ := he'
    rw [← hwf]
    exact hall w hw
  have hnd := result_participants_nodup tp messages result hres
  have hlen : result.length ≤ 1 := by
    have hrep := List.eq_replicate_iff.2 ⟨rfl, hallp⟩
    rw [hrep] at hnd
    have := List.nodup_replicate.1 hnd
    simpa using this
  have hsingle : result = [r] := by
    match result, hr, hlen with
    | [x], hr, _ =>
      have : r = x := by simpa using hr
      rw [this]
    | _ :: _ :: _, _, hlen => simp at hlen
  obtain ⟨_, _, _, _, hc, ⟨w, hw, _, hwd⟩, hmax⟩ := he
  refine ⟨r, hsingle, hp, ?_, ⟨w, hw, hwd⟩, fun m hm => hmax m hm (hall m hm)⟩
  rw [hc]
  unfold senderCount
  have : (fetchedMessages messages).countP (fun m => decide (msgFrom tp m = s))
      = (fetchedMessages messages).length := by
    rw [List.countP_eq_length]
    intro m hm
    simpa using hall m hm
  rw [this]

/-- C4: for every sequence of listed messages and every order in which the
final map is ranged over, the records have pairwise distinct participants; the
participants are exactly the non-empty senders of the fetched messages; and
each record has a non-empty participant and counts exactly the fetched messages
with that sender (whatever their dates parse to), so that a message with an
empty sender is in no count. -/
theorem C4_one_record_per_sender (tp : List Char → Except (List Char) Time)
    (messages : List (Option Message)) (result : List EmailInteraction)
    (hres : rangeValues (interactionsLoop tp messages) result) :
    (result.map (fun r => r.Participant)).Nodup ∧
    (∀ s, s ≠ [] →
      ((∃ m ∈ fetchedMessages messages, msgFrom tp m = s) ↔
        ∃ r ∈ result, r.Participant = s)) ∧
    (∀ r ∈ result, r.Participant ≠ [] ∧
      r.Count = senderCount tp (fetchedMessages messages) r.Participant) := by
  refine ⟨?_, ?_, ?_⟩
  · exact result_participants_nodup tp messages result hres
  · intro s hs
    constructor
    · rintro ⟨m, hm, hf⟩
      subst hf
      obtain ⟨r, hr, hp, _⟩ := result_of_sender tp messages result hres m hm hs
      exact ⟨r, hr, hp⟩
    · rintro ⟨r, hr, hp⟩
      obtain ⟨_, he⟩ := entryFor_of_mem_result tp messages result hres r hr
      obtain ⟨_, _, _, _, _, ⟨w, hw, hwf, _⟩, _⟩ := he
      exact ⟨w, hw, hwf.trans hp⟩
  · intro r hr
    obtain ⟨_, he⟩ := entryFor_of_mem_result tp messages result hres r hr
    exact ⟨he.1, he.2.2.2.2.1⟩

/-- C3 at three fetched messages of "ann@x.org" dated 100, unparsable and 200:
one record, count 3, last contact 200. -/
theorem C3_single_sender_witness :
    ∃ r, [(⟨"ann@x.org".toList, [], 0, 200, 3⟩ : EmailInteraction)] = [r] ∧
      r.Participant = "ann@x.org".toList ∧
      r.Count = ((fetchedMessages sampleOneSender).length : Int) ∧
      (∃ m ∈ fetchedMessages sampleOneSender, r.LastContact = msgDate sampleParse m) ∧
      (∀ m ∈ fetchedMessages sampleOneSender, msgDate sampleParse m ≤ r.LastContact) :=
  C3_single_sender sampleParse sampleOneSender "ann@x.org".toList
    [⟨"ann@x.org".toList, [], 0, 200, 3⟩] (by decide) (by decide) (by decide)
    (List.Perm.of_eq (by decide))

/-- C4 at four fetched messages: two of "ann@x.org", one of "bob@y.org" with an
unparsable date, one without sender; the map is ranged over in the order
"bob@y.org", "ann@x.org". -/
theorem C4_one_record_per_sender_witness :
    rangeValues (interactionsLoop sampleParse sampleTwoSenders)
      [⟨"bob@y.org".toList, [], 0, 0, 1⟩, ⟨"ann@x.org".toList, [], 0, 200, 2⟩] ∧
    ([(⟨"bob@y.org".toList, [], 0, 0, 1⟩ : EmailInteraction),
      ⟨"ann@x.org".toList, [], 0, 200, 2⟩].map (fun r => r.Participant)).Nodup ∧
    (∀ s, s ≠ [] →
      ((∃ m ∈ fetchedMessages sampleTwoSenders, msgFrom sampleParse m = s) ↔
        ∃ r ∈ [(⟨"bob@y.org".toList, [], 0, 0, 1⟩ : EmailInteraction),
               ⟨"ann@x.org".toList, [], 0, 200, 2⟩], r.Participant = s)) ∧
    (∀ r ∈ [(⟨"bob@y.org".toList, [], 0, 0, 1⟩ : EmailInteraction),
            ⟨"ann@x.org".toList, [], 0, 200, 2⟩],
      r.Participant ≠ [] ∧
      r.Count = senderCount sampleParse (fetchedMessages sampleTwoSenders) r.Participant) :=
  have hres : rangeValues (interactionsLoop sampleParse sampleTwoSenders)
      [⟨"bob@y.org".toList, [], 0, 0, 1⟩, ⟨"ann@x.org".toList, [], 0, 200, 2⟩] := by
    have h : interactionsLoop sampleParse sampleTwoSenders
        = [("ann@x.org".toList, ⟨"ann@x.org".toList, [], 0, 200, 2⟩),
           ("bob@y.org".toList, ⟨"bob@y.org".toList, [], 0, 0, 1⟩)] := by decide
    unfold rangeValues
    rw [h]
    exact List.Perm.swap _ _ _
  ⟨hres, C4_one_record_per_sender sampleParse sampleTwoSenders _ hres⟩

/-! ## The contact filter -/

theorem findContact_append (xs ys : List Contact) (e : List Char) :
    findContact (xs ++ ys) e =
      match findContact xs e with
      | some c => some c
      | none => findContact ys e := by
  induction xs with
  | nil => simp [findContact]
  | cons x xs ih =>
    by_cases h : x.Email = e
    · simp [findContact, h]
    · simp [findContact, h, ih]

/-- The map that `filterAndEnrichInteractions` builds holds, for each email,
the last contact of the list with that email. -/
theorem contactMap_get (contacts : List Contact) (m0 : GoMap Contact) (e : List Char) :
    mapGet (contacts.foldl (fun m contact => mapSet m contact.Email contact) m0) e =
      match findContact contacts.reverse e with
      | some c => some c
      | none => mapGet m0 e := by
  induction contacts generalizing m0 with
  | nil => simp [findContact]
  | cons c cs ih =>
    rw [List.foldl_cons, ih, List.reverse_cons, findContact_append]
    cases h : findContact cs.reverse e with
    | some c' => simp
    | none =>
      by_cases hc : c.Email = e
      · simp [findContact, hc, mapGet_mapSet]
      · simp [findContact, hc, mapGet_mapSet]

theorem filterLoop_eq (cm : GoMap Contact) (interactions acc : List EmailInteraction) :
    interactions.foldl
      (fun filtered interaction =>
        match mapGet cm interaction.Participant with
        | some contact =>
          filtered ++ [{ interaction with Name := contact.Name, Priority := contact.Priority }]
        | none => filtered) acc
    = acc ++ interactions.filterMap
        (fun i => (mapGet cm i.Participant).map (fun c => enrich c i)) := by
  induction interactions generalizing acc with
  | nil => simp
  | cons i is ih =>
    rw [List.foldl_cons, ih]
    cases h : mapGet cm i.Participant with
    | none => simp [List.filterMap_cons, h]
    | some c => simp [List.filterMap_cons, h, enrich]

/-- The contact filter as one pass: each interaction is kept, enriched, when the
reversed contact list has a contact with its participant as email, and that
contact (the last one in list order) is the one copied from. -/
theorem filterAndEnrichInteractions_eq (contacts : List Contact)
    (interactions : List EmailInteraction) :
    filterAndEnrichInteractions contacts interactions =
      interactions.filterMap
        (fun i => (findContact contacts.reverse i.Participant).map (fun c => enrich c i)) := by
  unfold filterAndEnrichInteractions
  simp only
  rw [filterLoop_eq, List.nil_append]
  apply List.filterMap_congr
  intro i _
  rw [contactMap_get]
  cases findContact contacts.reverse i.Participant <;> simp [mapGet]

theorem findContact_eq_some_iff (contacts : List Contact) (e : List Char) (c : Contact)
    (hnd : (contacts.map (fun c => c.Email)).Nodup) :
    findContact contacts e = some c ↔ c ∈ contacts ∧ c.Email = e := by
  induction contacts with
  | nil => simp [findContact]
  | cons x xs ih =>
    simp only [List.map_cons, List.nodup_cons] at hnd
    by_cases h : x.Email = e
    · simp only [findContact, if_pos h, Option.some.injEq, List.mem_cons]
      constructor
      · rintro rfl; exact ⟨Or.inl rfl, h⟩
      · rintro ⟨hc | hc, he⟩
        · exact hc.symm
        · exfalso
          apply hnd.1
          rw [h, ← he]
          exact List.mem_map.2 ⟨c, hc, rfl⟩
    · simp only [findContact, if_neg h, List.mem_cons, ih hnd.2]
      constructor
      · rintro ⟨hc, he⟩; exact ⟨Or.inr hc, he⟩
      · rintro ⟨hc | hc, he⟩
        · subst hc; exact absurd he h
        · exact ⟨hc, he⟩

theorem findContact_mem (contacts : List Contact) (e : List Char) (c : Contact)
    (h : findContact contacts e = some c) : c ∈ contacts ∧ c.Email = e := by
  induction contacts with
  | nil => simp [findContact] at h
  | cons x xs ih =>
    by_cases hx : x.Email = e
    · simp only [findContact, if_pos hx, Option.some.injEq] at h
      subst h
      exact ⟨List.mem_cons_self _ _, hx⟩
    · simp only [findContact, if_neg hx] at h
      exact ⟨List.mem_cons_of_mem _ (ih h).1, (ih h).2⟩

theorem findContact_reverse (contacts : List Contact) (e : List Char)
    (hnd : (contacts.map (fun c => c.Email)).Nodup) :
    findContact contacts.reverse e = findContact contacts e := by
  have hnd' : (contacts.reverse.map (fun c => c.Email)).Nodup := by
    rw [List.map_reverse]; exact List.nodup_reverse.2 hnd
  cases h : findContact contacts e with
  | some c =>
    rw [findContact_eq_some_iff _ _ _ hnd'] 
    have := (findContact_eq_some_iff _ _ _ hnd).1 h
    exact ⟨List.mem_reverse.2 this.1, this.2⟩
  | none =>
    cases h' : findContact contacts.reverse e with
    | none => rfl
    | some c =>
      have := (findContact_eq_some_iff _ _ _ hnd').1 h'
      have h2 := (findContact_eq_some_iff _ _ c hnd).2 ⟨List.mem_reverse.1 this.1, this.2⟩
      rw [h] at h2
      cases h2

/-! ## Contact validation -/

theorem validate_eq_none_iff (c : Contact) :
    validate c = none ↔
      (¬ isBlank c.Email ∧ '@' ∈ c.Email ∧ ¬ isBlank c.Name ∧
        1 ≤ c.Priority ∧ c.Priority ≤ 5) := by
  unfold validate isBlank
  rw [← TrimSpace_eq_nil_iff, ← TrimSpace_eq_nil_iff, ← Contains_single_iff]
  by_cases h1 : TrimSpace c.Email = []
  · simp [h1]
  · by_cases h2 : Contains c.Email ['@'] = true
    · by_cases h3 : TrimSpace c.Name = []
      · simp [h1, h2, h3]
      · by_cases h4 : c.Priority < 1 ∨ c.Priority > 5
        · simp only [h1, h2, h3, h4, if_true, if_false, not_false_eq_true, true_and]
          simp
          omega
        · simp only [h1, h2, h3, h4, if_false, not_false_eq_true, true_and]
          simp
          omega
    · simp [h1, h2]

/-- C5: for every list of interactions and every contact list with pairwise
distinct emails, `filterAndEnrichInteractions` returns, in input order, exactly
the interactions whose participant is the email of a contact, each with the
name and priority of that contact and otherwise unchanged (`pick` names the
contact of an interaction); and when every contact passes `validate`, every
returned record has a name that is not blank and a priority from 1 to 5. -/
theorem C5_filter_and_enrich (contacts : List Contact) (interactions : List EmailInteraction)
    (hnd : (contacts.map (fun c => c.Email)).Nodup) :
    (∃ pick : EmailInteraction → Option Contact,
      (∀ i c, pick i = some c ↔ (c ∈ contacts ∧ c.Email = i.Participant)) ∧
      filterAndEnrichInteractions contacts interactions =
        interactions.filterMap (fun i => (pick i).map (fun c =>
          ({ Participant := i.Participant, Name := c.Name, Priority := c.Priority,
             LastContact := i.LastContact, Count := i.Count } : EmailInteraction)))) ∧
    ((∀ c ∈ contacts, validate c = none) →
      ∀ r ∈ filterAndEnrichInteractions contacts interactions,
        ¬ isBlank r.Name ∧ 1 ≤ r.Priority ∧ r.Priority ≤ 5) := by
  have heq : filterAndEnrichInteractions contacts interactions =
      interactions.filterMap (fun i => (findContact contacts i.Participant).map (fun c =>
        ({ Participant := i.Participant, Name := c.Name, Priority := c.Priority,
           LastContact := i.LastContact, Count := i.Count } : EmailInteraction))) := by
    rw [filterAndEnrichInteractions_eq]
    apply List.filterMap_congr
    intro i _
    rw [findContact_reverse contacts _ hnd]
    rfl
  refine ⟨⟨fun i => findContact contacts i.Participant, ?_, heq⟩, ?_⟩
  · intro i c
    exact findContact_eq_some_iff contacts i.Participant c hnd
  · intro hval r hr
    rw [heq, List.mem_filterMap] at hr
    obtain ⟨i, _, hi⟩ := hr
    cases hf : findContact contacts i.Participant with
    | none => rw [hf] at hi; simp at hi
    | some c =>
      rw [hf] at hi
      simp only [Option.map_some', Option.some.injEq] at hi
      subst hi
      have hv := (validate_eq_none_iff c).1 (hval c (findContact_mem _ _ _ hf).1)
      exact ⟨hv.2.2.1, hv.2.2.2.1, hv.2.2.2.2⟩

/-- C5 at the two sample contacts and three interactions: the interaction with
"zed@z.org" is dropped, the other two get name and priority. -/
theorem C5_filter_and_enrich_witness :
    (sampleContacts.map (fun c => c.Email)).Nodup ∧
    filterAndEnrichInteractions sampleContacts sampleInteractions =
      [⟨"ann@x.org".toList, "Ann".toList, 5, 200, 2⟩,
       ⟨"bob@y.org".toList, "Bob".toList, 2, 0, 1⟩] ∧
    ((∀ c ∈ sampleContacts, validate c = none) →
      ∀ r ∈ filterAndEnrichInteractions sampleContacts sampleInteractions,
        ¬ isBlank r.Name ∧ 1 ≤ r.Priority ∧ r.Priority ≤ 5) :=
  ⟨by decide, by decide,
    (C5_filter_and_enrich sampleContacts sampleInteractions (by decide)).2⟩

/-- The contact lookup of `DraftEmail` and `CatchupWithBlog` selects the first
contact of the list with the email: a contact preceded by no contact with its
email is the one found. -/
theorem findContact_first_wins (before after : List Contact) (c : Contact)
    (hfirst : ∀ c' ∈ before, c'.Email ≠ c.Email) :
    findContact (before ++ c :: after) c.Email = some c := by
  have hnone : findContact before c.Email = none := by
    cases h : findContact before c.Email with
    | none => rfl
    | some c' =>
      have := findContact_mem _ _ _ h
      exact absurd this.2 (hfirst c' this.1)
  rw [findContact_append, hnone]
  simp [findContact]

/-- C6 (the code at the failing input): with two contacts of the same email,
the lookup of `DraftEmail` and `CatchupWithBlog` selects the first ("First",
priority 1) while `filterAndEnrichInteractions` copies the name and priority of
the second ("Second", priority 2), not those of the first. -/
theorem C6_filter_copies_last_duplicate :
    findContact sampleDuplicates "ann@x.org".toList
      = some ⟨"ann@x.org".toList, "First".toList, 1, [], []⟩ ∧
    filterAndEnrichInteractions sampleDuplicates [⟨"ann@x.org".toList, [], 0, 200, 2⟩]
      = [⟨"ann@x.org".toList, "Second".toList, 2, 200, 2⟩] ∧
    filterAndEnrichInteractions sampleDuplicates [⟨"ann@x.org".toList, [], 0, 200, 2⟩]
      ≠ [⟨"ann@x.org".toList, "First".toList, 1, 200, 2⟩] := by
  refine ⟨by decide, by decide, by decide⟩

/-- What `filterAndEnrichInteractions` does with contacts of one email: the last
such contact in list order is the one copied from. If `c` is followed by no
contact with its email, every returned record with that participant has the
name and priority of `c`, and every interaction with that participant is
returned with them. -/
theorem filterAndEnrich_last_contact_wins (before after : List Contact) (c : Contact)
    (interactions : List EmailInteraction)
    (hlast : ∀ c' ∈ after, c'.Email ≠ c.Email) :
    (∀ r ∈ filterAndEnrichInteractions (before ++ c :: after) interactions,
      r.Participant = c.Email → r.Name = c.Name ∧ r.Priority = c.Priority) ∧
    (∀ i ∈ interactions, i.Participant = c.Email →
      ({ Participant := i.Participant, Name := c.Name, Priority := c.Priority,
         LastContact := i.LastContact, Count := i.Count } : EmailInteraction)
        ∈ filterAndEnrichInteractions (before ++ c :: after) interactions) := by
  have hfind : findContact (before ++ c :: after).reverse c.Email = some c := by
    have hnone : findContact after.reverse c.Email = none := by
      cases h : findContact after.reverse c.Email with
      | none => rfl
      | some c' =>
        have := findContact_mem _ _ _ h
        exact absurd this.2 (hlast c' (List.mem_reverse.1 this.1))
    rw [List.reverse_append, List.reverse_cons, List.append_assoc, findContact_append, hnone]
    simp [findContact]
  rw [filterAndEnrichInteractions_eq]
  constructor
  · intro r hr hp
    rw [List.mem_filterMap] at hr
    obtain ⟨i, _, hi⟩ := hr
    cases hf : findContact (before ++ c :: after).reverse i.Participant with
    | none => rw [hf] at hi; simp at hi
    | some c' =>
      rw [hf] at hi
      simp only [Option.map_some', Option.some.injEq] at hi
      subst hi
      have hip : i.Participant = c.Email := hp
      rw [hip, hfind] at hf
      cases hf
      exact ⟨rfl, rfl⟩
  · intro i hi hp
    rw [List.mem_filterMap]
    refine ⟨i, hi, ?_⟩
    rw [hp, hfind]
    simp [enrich, hp]

/-- The two sample contacts with the same email, followed by a third contact:
the second is the last one with that email, and its name and priority are the
ones copied. -/
theorem filterAndEnrich_last_contact_wins_example :
    (∀ c' ∈ [(⟨"bob@y.org".toList, "Bob".toList, 2, [], []⟩ : Contact)],
      c'.Email ≠ "ann@x.org".toList) ∧
    (⟨"ann@x.org".toList, "Second".toList, 2, 200, 2⟩ : EmailInteraction)
      ∈ filterAndEnrichInteractions
          (sampleDuplicates ++ [⟨"bob@y.org".toList, "Bob".toList, 2, [], []⟩])
          [⟨"ann@x.org".toList, [], 0, 200, 2⟩] :=
  ⟨by decide,
    (filterAndEnrich_last_contact_wins [⟨"ann@x.org".toList, "First".toList, 1, [], []⟩]
      [⟨"bob@y.org".toList, "Bob".toList, 2, [], []⟩]
      ⟨"ann@x.org".toList, "Second".toList, 2, [], []⟩ [⟨"ann@x.org".toList, [], 0, 200, 2⟩]
      (by decide)).2 ⟨"ann@x.org".toList, [], 0, 200, 2⟩ (by simp) rfl⟩

/-- C7: for every contact, `validate` returns no error if and only if the email
is not blank and contains "@", the name is not blank, and the priority is from
1 to 5; in particular the priorities 0 and 6, an empty email, an email without
"@" and a blank name are rejected. -/
theorem C7_validate_iff (c : Contact) :
    (validate c = none ↔
      (¬ isBlank c.Email ∧ '@' ∈ c.Email ∧ ¬ isBlank c.Name ∧
        1 ≤ c.Priority ∧ c.Priority ≤ 5)) ∧
    ¬ (c.Priority = 0 ∧ validate c = none) ∧
    ¬ (c.Priority = 6 ∧ validate c = none) ∧
    ¬ (c.Email = [] ∧ validate c = none) ∧
    ¬ ('@' ∉ c.Email ∧ validate c = none) ∧
    ¬ (isBlank c.Name ∧ validate c = none) := by
  have h := validate_eq_none_iff c
  refine ⟨h, ?_, ?_, ?_, ?_, ?_⟩
  · rintro ⟨hp, hv⟩
    have := h.1 hv
    omega
  · rintro ⟨hp, hv⟩
    have := h.1 hv
    omega
  · rintro ⟨he, hv⟩
    apply (h.1 hv).1
    intro ch hch
    rw [he] at hch
    cases hch
  · rintro ⟨he, hv⟩
    exact he (h.1 hv).2.1
  · rintro ⟨hn, hv⟩
    exact (h.1 hv).2.2.1 hn

/-! ## What the line loop of `parseEmailResponse` does on a plain response -/

theorem Split_of_not_mem (l : List Char) (sep : Char) (h : sep ∉ l) : Split l sep = [l] := by
  induction l with
  | nil => rfl
  | cons c cs ih =>
    simp only [List.mem_cons, not_or] at h
    have hc : ¬ c = sep := fun e => h.1 e.symm
    simp [Split, hc, ih h.2]

theorem Split_append_sep (l t : List Char) (sep : Char) (h : sep ∉ l) :
    Split (l ++ sep :: t) sep = l :: Split t sep := by
  induction l with
  | nil => simp [Split]
  | cons c cs ih =>
    simp only [List.mem_cons, not_or] at h
    have hc : ¬ c = sep := fun e => h.1 e.symm
    simp [Split, hc, ih h.2]

/-- Splitting the join of lines without newline gives the lines back. -/
theorem Split_Join (lines : List (List Char)) (hne : lines ≠ [])
    (h : ∀ l ∈ lines, '\n' ∉ l) : Split (Join lines ['\n']) '\n' = lines := by
  induction lines with
  | nil => exact absurd rfl hne
  | cons l ls ih =>
    cases ls with
    | nil =>
      simpa [Join, List.intercalate] using Split_of_not_mem l '\n' (h l (List.mem_cons_self _ _))
    | cons l2 ls2 =>
      have hj : Join (l :: l2 :: ls2) ['\n'] = l ++ '\n' :: Join (l2 :: ls2) ['\n'] := by
        simp [Join, List.intercalate]
      rw [hj, Split_append_sep l _ '\n' (h l (List.mem_cons_self _ _)),
        ih (List.cons_ne_nil _ _) (fun x hx => h x (List.mem_cons_of_mem _ hx))]

theorem parseLoop_before_subject (lines : List (List Char))
    (h : ∀ line ∈ lines, HasPrefix line "Subject: ".toList = false) :
    lines.foldl parseStep { Subject := [], bodyLines := [], inBody := false }
      = { Subject := [], bodyLines := [], inBody := false } := by
  induction lines with
  | nil => rfl
  | cons l ls ih =>
    have h1 : ¬ (HasPrefix l "Subject: ".toList = true) := by
      rw [h l (List.mem_cons_self _ _)]; exact Bool.false_ne_true
    have hstep : parseStep { Subject := [], bodyLines := [], inBody := false } l
        = { Subject := [], bodyLines := [], inBody := false } := by
      unfold parseStep
      rw [if_neg h1]
      simp
    rw [List.foldl_cons, hstep]
    exact ih (fun line hl => h line (List.mem_cons_of_mem _ hl))

theorem parseStep_subject_line (st : ParseState) (s : List Char) :
    parseStep st ("Subject: ".toList ++ s) = { st with Subject := s } := by
  have hp : HasPrefix ("Subject: ".toList ++ s) "Subject: ".toList = true := by
    unfold HasPrefix
    exact List.isPrefixOf_iff_prefix.2 (List.prefix_append _ _)
  have ht : TrimPrefix ("Subject: ".toList ++ s) "Subject: ".toList = s := by
    unfold TrimPrefix
    rw [if_pos hp, List.drop_left]
  unfold parseStep
  rw [if_pos hp, ht]

theorem parseLoop_between (lines : List (List Char)) (s : List Char)
    (h : ∀ line ∈ lines, HasPrefix line "Subject: ".toList = false ∧ line ≠ []) :
    lines.foldl parseStep { Subject := s, bodyLines := [], inBody := false }
      = { Subject := s, bodyLines := [], inBody := false } := by
  induction lines with
  | nil => rfl
  | cons l ls ih =>
    have hl := h l (List.mem_cons_self _ _)
    have h1 : ¬ (HasPrefix l "Subject: ".toList = true) := by
      rw [hl.1]; exact Bool.false_ne_true
    have hstep : parseStep { Subject := s, bodyLines := [], inBody := false } l
        = { Subject := s, bodyLines := [], inBody := false } := by
      unfold parseStep
      rw [if_neg h1, if_neg (fun hc => hl.2 hc.1)]
      simp
    rw [List.foldl_cons, hstep]
    exact ih (fun line hl => h line (List.mem_cons_of_mem _ hl))

theorem parseLoop_body (lines acc : List (List Char)) (s : List Char)
    (h : ∀ line ∈ lines, HasPrefix line "Subject: ".toList = false ∧ line ≠ []) :
    lines.foldl parseStep { Subject := s, bodyLines := acc, inBody := true }
      = { Subject := s, bodyLines := acc ++ lines, inBody := true } := by
  induction lines generalizing acc with
  | nil => simp
  | cons l ls ih =>
    have hl := h l (List.mem_cons_self _ _)
    have h1 : ¬ (HasPrefix l "Subject: ".toList = true) := by
      rw [hl.1]; exact Bool.false_ne_true
    have hstep : parseStep { Subject := s, bodyLines := acc, inBody := true } l
        = { Subject := s, bodyLines := acc ++ [l], inBody := true } := by
      unfold parseStep
      rw [if_neg h1, if_neg (fun hc => hl.2 hc.1)]
      simp
    rw [List.foldl_cons, hstep, ih _ (fun line hl => h line (List.mem_cons_of_mem _ hl))]
    simp

/-- The part of the draft format that the parser handles as the specification
says: when the first line beginning with "Subject: " carries a non-empty text
`s`, a blank line follows, no line after the subject line begins with
"Subject: " and no line after the first blank line is blank, the response
parses to the subject `s` and to the body made of all the lines after that
blank line, unchanged, in order, joined by newlines. -/
theorem parseEmailResponse_plain (before between body : List (List Char)) (s : List Char)
    (hs : s ≠ [])
    (hnl : ∀ l ∈ before ++ [("Subject: ".toList ++ s)] ++ between ++ [[]] ++ body, '\n' ∉ l)
    (hbefore : ∀ line ∈ before, HasPrefix line "Subject: ".toList = false)
    (hbetween : ∀ line ∈ between, HasPrefix line "Subject: ".toList = false ∧ line ≠ [])
    (hbody : ∀ line ∈ body, HasPrefix line "Subject: ".toList = false ∧ line ≠ []) :
    parseEmailResponse
        (Join (before ++ [("Subject: ".toList ++ s)] ++ between ++ [[]] ++ body) "\n".toList)
      = ({ Subject := s, Body := Join body "\n".toList, To := [] }, none) := by
  have hsplit := Split_Join
    (before ++ [("Subject: ".toList ++ s)] ++ between ++ [[]] ++ body) (by simp) hnl
  have hblank : parseStep { Subject := s, bodyLines := [], inBody := false } []
      = { Subject := s, bodyLines := [], inBody := true } := by
    unfold parseStep
    rw [if_neg (by decide), if_pos ⟨rfl, hs⟩]
  have hloop : (before ++ [("Subject: ".toList ++ s)] ++ between ++ [[]] ++ body).foldl parseStep
      { Subject := [], bodyLines := [], inBody := false }
      = { Subject := s, bodyLines := body, inBody := true } := by
    rw [List.foldl_append, List.foldl_append, List.foldl_append, List.foldl_append,
      parseLoop_before_subject before hbefore]
    simp only [List.foldl_cons, List.foldl_nil]
    rw [parseStep_subject_line, parseLoop_between between s hbetween, hblank,
      parseLoop_body body [] s hbody]
    simp
  unfold parseEmailResponse
  have e : "\n".toList = ['\n'] := rfl
  rw [e, hsplit]
  simp only [hloop, if_neg hs]

/-! ## The header loop on a message with one `From` and one `Date` header -/

/-- For a message with exactly the headers `From` and `Date`, the sender of the
loop is the extracted `From` value and the date is the parsed `Date` value, the
zero time when it does not parse. -/
theorem scanHeaders_from_date (tp : List Char → Except (List Char) Time) (v d : List Char) :
    msgFrom tp ⟨[⟨"From".toList, v⟩, ⟨"Date".toList, d⟩]⟩ = extractEmail v ∧
    msgDate tp ⟨[⟨"From".toList, v⟩, ⟨"Date".toList, d⟩]⟩ =
      (match tp d with
       | .ok t => t
       | .error _ => 0) := by
  constructor
  · simp [msgFrom, scanHeaders]
  · simp only [msgDate, scanHeaders, parseEmailDate, List.foldl_cons, List.foldl_nil]
    cases tp d <;> simp

/-! ## Draft parsing and the chat call -/

theorem parseStep_subject_nil (st : ParseState) (line : List Char)
    (hst : st.Subject = []) (hline : HasPrefix line "Subject: ".toList = false) :
    (parseStep st line).Subject = [] := by
  unfold parseStep
  have h1 : ¬ (HasPrefix line "Subject: ".toList = true) := by
    rw [hline]; exact Bool.false_ne_true
  rw [if_neg h1]
  have h2 : ¬ (line = [] ∧ st.Subject ≠ []) := fun h => h.2 hst
  rw [if_neg h2]
  split <;> exact hst

theorem parseLoop_subject_nil (lines : List (List Char)) (st : ParseState)
    (hst : st.Subject = [])
    (hlines : ∀ line ∈ lines, HasPrefix line "Subject: ".toList = false) :
    (lines.foldl parseStep st).Subject = [] := by
  induction lines generalizing st with
  | nil => exact hst
  | cons l ls ih =>
    rw [List.foldl_cons]
    exact ih _ (parseStep_subject_nil st l hst (hlines l (List.mem_cons_self _ _)))
      (fun line hl => hlines line (List.mem_cons_of_mem _ hl))

theorem parseEmailResponse_no_subject (response : List Char)
    (hno : ∀ line ∈ Split response '\n', HasPrefix line "Subject: ".toList = false) :
    parseEmailResponse response =
      ({ Subject := [], Body := [], To := [] }, some "no subject found in response".toList) := by
  have h := parseLoop_subject_nil (Split response '\n')
    { Subject := [], bodyLines := [], inBody := false } rfl hno
  unfold parseEmailResponse
  simp only [h, if_true]

/-- When the token count returns no response, `Chat` panics whatever the
generation would return. -/
theorem Chat_panics_of_count_nil (model : GenerativeModel) (input : List Char)
    (h : (model.CountTokens input).1 = none) : SocialAssistant.Chat model input = .panics := by
  unfold SocialAssistant.Chat
  simp only [h]

/-- When the token count returns a response and the generation returns no error
and a first candidate with a first part, `Chat` returns the text of that part. -/
theorem Chat_returns_of_count_ok (model : GenerativeModel) (input : List Char)
    (t : CountTokensResponse) (part : Part) (parts : List Part) (cands : List (Option Candidate))
    (hc : (model.CountTokens input).1 = some t)
    (hg : model.GenerateContent input = (some ⟨some ⟨some ⟨part :: parts⟩⟩ :: cands⟩, none)) :
    SocialAssistant.Chat model input = .returns (part.sprint, none) := by
  unfold SocialAssistant.Chat
  simp only [hc, hg]

/-- C8 (the code at the failing input): for a response with a subject line, a
blank line and a body of two paragraphs, `parseEmailResponse` succeeds with the
subject "Hi", but the body it returns has lost the blank line between the
paragraphs, so it is not everything after the first blank line. -/
theorem C8_body_loses_blank_lines :
    parseEmailResponse "Subject: Hi\n\nPara 1\n\nPara 2".toList
      = (⟨"Hi".toList, "Para 1\nPara 2".toList, []⟩, none) ∧
    (parseEmailResponse "Subject: Hi\n\nPara 1\n\nPara 2".toList).1.Body
      ≠ "Para 1\n\nPara 2".toList := by
  refine ⟨by decide, by decide⟩

/-- The example of the specification: the response
"Subject: Hi\n\nBody line 1\nBody line 2" parses to the subject "Hi" and the
body "Body line 1\nBody line 2". -/
theorem parseEmailResponse_spec_example :
    parseEmailResponse "Subject: Hi\n\nBody line 1\nBody line 2".toList
      = (⟨"Hi".toList, "Body line 1\nBody line 2".toList, []⟩, none) := by
  decide

/-- C9: for every model response none of whose lines begins with "Subject: ",
`parseEmailResponse` returns the error "no subject found in response", so
`DraftEmail` fails and no draft is saved: for all collaborators and every
recipient, (1) when the contact is found and the interactions are fetched, the
run sends exactly one prompt through `Chat`, the one that
`formatEmailDraftPrompt` builds; (2) when the model answers the prompt that the
run sends with nothing but this response, the run never returns without error
and never calls `Users.Drafts.Create`; (3) when the model answers the prompt
that the run sends with this response, the run returns the parse error. What
the model would answer to other prompts plays no part. -/
theorem C9_no_subject_fails (response : List Char)
    (hno : ∀ line ∈ Split response '\n', HasPrefix line "Subject: ".toList = false) :
    (parseEmailResponse response).2 = some "no subject found in response".toList ∧
    ∀ (env : DraftEnv) («to» : List Char),
      (∀ c, findContact env.contacts «to» = some c →
        (env.GetInteractionsByParticipant c.Email).2 = none →
        (SocialAssistant.DraftEmail env «to»).1.chats =
          [formatEmailDraftPrompt env.formatDate c
            (findInteraction (env.GetInteractionsByParticipant c.Email).1 «to»)
            (if c.RSSFeed ≠ [] then
              match (env.GetRecentPosts c.RSSFeed 3).2 with
              | some _ => []
              | none => (env.GetRecentPosts c.RSSFeed 3).1
            else [])]) ∧
      ((∀ prompt ∈ (SocialAssistant.DraftEmail env «to»).1.chats,
          ∀ r, SocialAssistant.Chat env.model prompt = .returns (r, none) → r = response) →
        (SocialAssistant.DraftEmail env «to»).1.created = [] ∧
        (∀ text, (SocialAssistant.DraftEmail env «to»).2 ≠ .returns (text, none))) ∧
      (∀ prompt ∈ (SocialAssistant.DraftEmail env «to»).1.chats,
        SocialAssistant.Chat env.model prompt = .returns (response, none) →
        (SocialAssistant.DraftEmail env «to»).1.created = [] ∧
        (SocialAssistant.DraftEmail env «to»).2 = .returns ([], some
          ("failed to parse email response: ".toList ++
            "no subject found in response".toList))) := by
  have hparse := parseEmailResponse_no_subject response hno
  refine ⟨by rw [hparse], ?_⟩
  intro env «to»
  unfold SocialAssistant.DraftEmail
  cases hfc : findContact env.contacts «to» with
  | none =>
    refine ⟨fun c hc => (by cases hc), fun _ => ⟨rfl, by simp⟩, ?_⟩
    intro prompt hp
    cases hp
  | some targetContact =>
    simp only
    cases hgi : (env.GetInteractionsByParticipant targetContact.Email).2 with
    | some err =>
      simp only
      refine ⟨?_, fun _ => ⟨trivial, by simp⟩, ?_⟩
      · intro c hc hnone
        cases hc
        rw [hgi] at hnone
        cases hnone
      · intro prompt hp
        cases hp
    | none =>
      simp only
      generalize hprompt : formatEmailDraftPrompt env.formatDate targetContact
        (findInteraction (env.GetInteractionsByParticipant targetContact.Email).1 «to»)
        (if targetContact.RSSFeed ≠ [] then
          match (env.GetRecentPosts targetContact.RSSFeed 3).2 with
          | some _ => []
          | none => (env.GetRecentPosts targetContact.RSSFeed 3).1
        else []) = prompt
      cases hchat : SocialAssistant.Chat env.model prompt with
      | panics =>
        simp only
        refine ⟨?_, fun _ => ⟨trivial, by simp⟩, ?_⟩
        · intro c hc _
          cases hc
          rw [hprompt]
        · intro p hp hr
          have hpe : p = prompt := by simpa using hp
          rw [hpe, hchat] at hr
          cases hr
      | returns val =>
        obtain ⟨r, e⟩ := val
        cases e with
        | some err =>
          simp only
          refine ⟨?_, fun _ => ⟨trivial, by simp⟩, ?_⟩
          · intro c hc _
            cases hc
            rw [hprompt]
          · intro p hp hr
            have hpe : p = prompt := by simpa using hp
            rw [hpe, hchat] at hr
            cases hr
        | none =>
          refine ⟨?_, ?_, ?_⟩
          · intro c hc _
            cases hc
            simp only [hprompt]
            cases (parseEmailResponse r).2 with
            | some err => rfl
            | none =>
              simp only
              split <;> rfl
          · intro hmodel
            have hr : r = response := hmodel prompt (by
              simp only
              cases (parseEmailResponse r).2 with
              | some err => simp
              | none =>
                simp only
                split <;> simp) r hchat
            subst hr
            simp only [hparse]
            exact ⟨trivial, by simp⟩
          · intro p hp hr
            have hpe : p = prompt := by
              have hch : (match (parseEmailResponse r).2 with
                | some err =>
                  ((⟨[prompt], []⟩ : Effects),
                    (Run.returns ([], some ("failed to parse email response: ".toList ++ err)) :
                      Run (List Char × GoError)))
                | none =>
                  match SaveDraft env.draftsCreate { parseEmailResponse r |>.1 with To := «to» } with
                  | some err =>
                    (⟨[prompt], [draftMessage { parseEmailResponse r |>.1 with To := «to» }]⟩,
                      .returns ([], some ("failed to save draft: ".toList ++ err)))
                  | none =>
                    (⟨[prompt], [draftMessage { parseEmailResponse r |>.1 with To := «to» }]⟩,
                      .returns ("Draft saved to Gmail:\n\n".toList ++ r, none))).1.chats
                  = [prompt] := by
                cases (parseEmailResponse r).2 with
                | some err => rfl
                | none =>
                  simp only
                  split <;> rfl
              rw [hch] at hp
              simpa using hp
            rw [hpe, hchat] at hr
            have hre : r = response := by
              cases hr
              rfl
            subst hre
            simp only [hparse]
            exact ⟨trivial, trivial⟩

/-- C9 at the sample collaborators with the prompt-dependent model, which
answers the prompt "ping" with a subject line and the prompt that `DraftEmail`
sends with "Dear Ann,\n\nHow are you?": the draft to "ann@x.org" fails with
the parse error and nothing is created. -/
theorem C9_no_subject_fails_witness :
    (∀ line ∈ Split "Dear Ann,\n\nHow are you?".toList '\n',
      HasPrefix line "Subject: ".toList = false) ∧
    SocialAssistant.Chat sampleDraftEnvVarying.model "ping".toList
      = .returns ("Subject: Pong\n\nBody".toList, none) ∧
    (SocialAssistant.DraftEmail sampleDraftEnvVarying "ann@x.org".toList).1.created = [] ∧
    (SocialAssistant.DraftEmail sampleDraftEnvVarying "ann@x.org".toList).2 = .returns ([], some
      ("failed to parse email response: ".toList ++ "no subject found in response".toList)) :=
  have h := (C9_no_subject_fails "Dear Ann,\n\nHow are you?".toList (by decide)).2
    sampleDraftEnvVarying "ann@x.org".toList
  have hch := h.1 ⟨"ann@x.org".toList, "Ann".toList, 5, [], []⟩ (by decide) rfl
  have hres := h.2.2 _ (by rw [hch]; exact List.mem_singleton_self _) (by decide)
  ⟨by decide, by decide, hres.1, hres.2⟩

/-- C10 (the code at the failing input): with a model whose token count fails
(no response, an error) and whose generation succeeds with the part "Hello",
`Chat` panics at `tokResp.TotalTokens` instead of returning "Hello". -/
theorem C10_chat_panics_when_count_fails :
    (sampleModelCountFails.CountTokens "Who should I write to?".toList).1 = none ∧
    (sampleModelCountFails.CountTokens "Who should I write to?".toList).2 ≠ none ∧
    sampleModelCountFails.GenerateContent "Who should I write to?".toList
      = (some ⟨[some ⟨some ⟨[⟨"Hello".toList⟩]⟩⟩]⟩, none) ∧
    SocialAssistant.Chat sampleModelCountFails "Who should I write to?".toList = .panics ∧
    SocialAssistant.Chat sampleModelCountFails "Who should I write to?".toList
      ≠ .returns ("Hello".toList, none) := by
  refine ⟨rfl, by decide, rfl, rfl, by decide⟩

/-! ## The blog catchup -/

theorem recentPostsLoop_acc (weekAgo : Time) (posts acc : List BlogPost) :
    posts.foldl
      (fun recentPosts post =>
        if After post.Published weekAgo then recentPosts ++ [post] else recentPosts) acc
    = acc ++ posts.filter (fun p => decide (weekAgo < p.Published)) := by
  induction posts generalizing acc with
  | nil => simp
  | cons p ps ih =>
    rw [List.foldl_cons, ih]
    by_cases h : weekAgo < p.Published
    · simp [After, h, List.filter_cons]
    · simp [After, h, List.filter_cons]

/-- The date filter loop keeps exactly the posts published strictly after
`weekAgo`, in the order of the feed. -/
theorem recentPostsLoop_eq_filter (weekAgo : Time) (posts : List BlogPost) :
    recentPostsLoop weekAgo posts = posts.filter (fun p => decide (weekAgo < p.Published)) := by
  unfold recentPostsLoop
  rw [recentPostsLoop_acc, List.nil_append]

/-- C11: for every contact found with a configured feed and every list of
fetched posts, the posts that `CatchupWithBlog` keeps are exactly those
published strictly after thirty days before now, in feed order; when none is
kept the call returns the canned no-posts message with no error and `Chat` is
not invoked; when at least one is kept `Chat` is invoked exactly once, with the
prompt built from the kept posts, and its outcome is the outcome of the call. -/
theorem C11_catchup_filters_last_30_days (env : CatchupEnv) (email : List Char) (c : Contact)
    (posts : List BlogPost)
    (hc : findContact env.contacts email = some c) (hfeed : c.RSSFeed ≠ [])
    (hposts : env.GetRecentPosts c.RSSFeed 10 = (posts, none)) :
    recentPostsLoop (env.AddDate env.now 0 0 (-30)) posts
      = posts.filter (fun p => decide (env.AddDate env.now 0 0 (-30) < p.Published)) ∧
    (posts.filter (fun p => decide (env.AddDate env.now 0 0 (-30) < p.Published)) = [] →
      SocialAssistant.CatchupWithBlog env email =
        (⟨[], []⟩,
          .returns ("No posts from ".toList ++ c.Name ++ " in the last week.".toList, none))) ∧
    (posts.filter (fun p => decide (env.AddDate env.now 0 0 (-30) < p.Published)) ≠ [] →
      SocialAssistant.CatchupWithBlog env email =
        (⟨[formatCatchupPrompt env.formatDate c
            (posts.filter (fun p => decide (env.AddDate env.now 0 0 (-30) < p.Published)))], []⟩,
          SocialAssistant.Chat env.model (formatCatchupPrompt env.formatDate c
            (posts.filter (fun p => decide (env.AddDate env.now 0 0 (-30) < p.Published)))))) := by
  have hloop := recentPostsLoop_eq_filter (env.AddDate env.now 0 0 (-30)) posts
  refine ⟨hloop, ?_, ?_⟩
  · intro hnone
    unfold SocialAssistant.CatchupWithBlog
    simp only [hc, if_neg hfeed, hposts, hloop, hnone, List.length_nil, if_true]
  · intro hsome
    have hlen : ¬ (posts.filter
        (fun p => decide (env.AddDate env.now 0 0 (-30) < p.Published))).length = 0 := by
      intro h
      exact hsome (List.length_eq_zero.1 h)
    unfold SocialAssistant.CatchupWithBlog
    simp only [hc, if_neg hfeed, hposts, hloop, if_neg hlen]

/-- C11 at the sample collaborators (thirty days before now is the instant
900): of the posts published at 950, 900 and 990 the first and the third are
kept and `Chat` is invoked once; a feed with only the post published at 900
gives the canned message and no invocation. -/
theorem C11_catchup_filters_last_30_days_witness :
    (recentPostsLoop 900 samplePosts
      = [⟨"Old news".toList, "https://ann.example/1".toList, 950⟩,
         ⟨"Fresh".toList, "https://ann.example/2".toList, 990⟩] ∧
     (SocialAssistant.CatchupWithBlog (sampleCatchupEnv samplePosts) "ann@x.org".toList).1.chats
      = [formatCatchupPrompt (fun _ => "2024-01-02".toList) sampleFeedContact
          [⟨"Old news".toList, "https://ann.example/1".toList, 950⟩,
           ⟨"Fresh".toList, "https://ann.example/2".toList, 990⟩]]) ∧
    SocialAssistant.CatchupWithBlog
        (sampleCatchupEnv [⟨"Older".toList, "https://ann.example/0".toList, 900⟩])
        "ann@x.org".toList
      = (⟨[], []⟩, .returns ("No posts from Ann in the last week.".toList, none)) :=
  have h1 := C11_catchup_filters_last_30_days (sampleCatchupEnv samplePosts) "ann@x.org".toList
    sampleFeedContact samplePosts rfl (by decide) rfl
  have h2 := C11_catchup_filters_last_30_days
    (sampleCatchupEnv [⟨"Older".toList, "https://ann.example/0".toList, 900⟩])
    "ann@x.org".toList sampleFeedContact
    [⟨"Older".toList, "https://ann.example/0".toList, 900⟩] rfl (by decide) rfl
  ⟨⟨h1.1.trans (by decide), by rw [h1.2.2 (by decide)]; rfl⟩, h2.2.1 (by decide)⟩

/-! ## Which subject and which body lines `parseEmailResponse` returns -/

theorem parseStep_subject_keep (st : ParseState) (line : List Char)
    (hline : HasPrefix line "Subject: ".toList = false) :
    (parseStep st line).Subject = st.Subject := by
  have h1 : ¬ (HasPrefix line "Subject: ".toList = true) := by
    rw [hline]; exact Bool.false_ne_true
  unfold parseStep
  rw [if_neg h1]
  split
  · rfl
  · split <;> rfl

theorem parseLoop_subject_keep (lines : List (List Char)) (st : ParseState)
    (hlines : ∀ line ∈ lines, HasPrefix line "Subject: ".toList = false) :
    (lines.foldl parseStep st).Subject = st.Subject := by
  induction lines generalizing st with
  | nil => rfl
  | cons l ls ih =>
    rw [List.foldl_cons, ih _ (fun line hl => hlines line (List.mem_cons_of_mem _ hl)),
      parseStep_subject_keep st l (hlines l (List.mem_cons_self _ _))]

/-- The subject after the loop is the text of the last line beginning with
"Subject: ". -/
theorem parseLoop_subject_last (before after : List (List Char)) (s : List Char)
    (st : ParseState)
    (hafter : ∀ line ∈ after, HasPrefix line "Subject: ".toList = false) :
    ((before ++ ("Subject: ".toList ++ s) :: after).foldl parseStep st).Subject = s := by
  rw [List.foldl_append, List.foldl_cons, parseLoop_subject_keep after _ hafter,
    parseStep_subject_line]

theorem HasPrefix_eq_append (line pre : List Char) (h : HasPrefix line pre = true) :
    ∃ s, line = pre ++ s := by
  unfold HasPrefix at h
  obtain ⟨t, ht⟩ := List.isPrefixOf_iff_prefix.1 h
  exact ⟨t, ht.symm⟩

/-- When some line begins with "Subject: ", the lines split at the last such
line. -/
theorem exists_last_subject (lines : List (List Char))
    (h : ∃ line ∈ lines, HasPrefix line "Subject: ".toList = true) :
    ∃ before s after, lines = before ++ ("Subject: ".toList ++ s) :: after ∧
      ∀ line ∈ after, HasPrefix line "Subject: ".toList = false := by
  induction lines with
  | nil =>
    obtain ⟨l, hl, _⟩ := h
    cases hl
  | cons a t ih =>
    by_cases ht : ∃ line ∈ t, HasPrefix line "Subject: ".toList = true
    · obtain ⟨before, s, after, heq, hafter⟩ := ih ht
      exact ⟨a :: before, s, after, by rw [heq]; rfl, hafter⟩
    · have hnone : ∀ line ∈ t, HasPrefix line "Subject: ".toList = false := by
        intro line hl
        cases hp : HasPrefix line "Subject: ".toList with
        | false => rfl
        | true => exact absurd ⟨line, hl, hp⟩ ht
      obtain ⟨l, hl, hp⟩ := h
      rcases List.mem_cons.1 hl with rfl | hl'
      · obtain ⟨s, hs⟩ := HasPrefix_eq_append _ _ hp
        exact ⟨[], s, t, by rw [hs]; rfl, hnone⟩
      · rw [hnone l hl'] at hp
        cases hp

theorem Split_not_mem_sep (s : List Char) (sep : Char) : ∀ l ∈ Split s sep, sep ∉ l := by
  induction s with
  | nil =>
    intro l hl
    simp only [Split, List.mem_singleton] at hl
    subst hl
    exact List.not_mem_nil _
  | cons c cs ih =>
    intro l hl
    by_cases hc : c = sep
    · simp only [Split, if_pos hc, List.mem_cons] at hl
      rcases hl with rfl | hl
      · exact List.not_mem_nil _
      · exact ih l hl
    · simp only [Split, if_neg hc] at hl
      cases hsp : Split cs sep with
      | nil =>
        rw [hsp] at hl
        simp only [List.mem_singleton] at hl
        subst hl
        simp only [List.mem_singleton]
        exact fun e => hc e.symm
      | cons l0 ls =>
        rw [hsp] at hl ih
        simp only [List.mem_cons] at hl
        rcases hl with rfl | hl
        · simp only [List.mem_cons, not_or]
          exact ⟨fun e => hc e.symm, ih l0 (List.mem_cons_self _ _)⟩
        · exact ih l (List.mem_cons_of_mem _ hl)

/-- The lines collected for the body are lines of the response that do not
begin with "Subject: ". -/
theorem parseLoop_bodyLines (lines : List (List Char)) (st : ParseState)
    (hnl : ∀ line ∈ lines, '\n' ∉ line)
    (hst : ∀ line ∈ st.bodyLines, HasPrefix line "Subject: ".toList = false ∧ '\n' ∉ line) :
    ∀ line ∈ (lines.foldl parseStep st).bodyLines,
      HasPrefix line "Subject: ".toList = false ∧ '\n' ∉ line := by
  induction lines generalizing st with
  | nil => exact hst
  | cons l ls ih =>
    rw [List.foldl_cons]
    apply ih _ (fun line hl => hnl line (List.mem_cons_of_mem _ hl))
    unfold parseStep
    split
    · exact hst
    · rename_i hp
      split
      · exact hst
      · split
        · intro line hline
          simp only [List.mem_append, List.mem_singleton] at hline
          rcases hline with h | h
          · exact hst line h
          · subst h
            refine ⟨?_, hnl _ (List.mem_cons_self _ _)⟩
            cases hh : HasPrefix line "Subject: ".toList with
            | false => rfl
            | true => exact absurd hh hp
        · exact hst

/-- The lines of the joined body are the collected lines, or the single empty
line when nothing was collected; none begins with "Subject: ". -/
theorem Join_lines_no_subject (bodyLines : List (List Char))
    (h : ∀ line ∈ bodyLines, HasPrefix line "Subject: ".toList = false ∧ '\n' ∉ line) :
    ∀ line ∈ Split (Join bodyLines "\n".toList) '\n',
      HasPrefix line "Subject: ".toList = false := by
  have e : "\n".toList = ['\n'] := rfl
  rw [e]
  cases bodyLines with
  | nil =>
    intro line hl
    have : line = [] := by simpa [Join, Split] using hl
    subst this
    decide
  | cons b bs =>
    rw [Split_Join (b :: bs) (List.cons_ne_nil _ _) (fun l hl => (h l hl).2)]
    exact fun line hl => (h line hl).1

/-- C12: for every model response, `parseEmailResponse` succeeds if and only if
the response has a line beginning with "Subject: " and the text after that
prefix on the last such line is not empty; the returned subject is exactly the
text after the prefix on the last such line, and it contains no newline; and no
line of the returned body begins with "Subject: ", wherever such lines occur in
the response. -/
theorem C12_last_subject_line_wins (response : List Char) :
    ((parseEmailResponse response).2 = none ↔
      ∃ before s after,
        Split response '\n' = before ++ ("Subject: ".toList ++ s) :: after ∧
        (∀ line ∈ after, HasPrefix line "Subject: ".toList = false) ∧ s ≠ []) ∧
    (∀ before s after,
      Split response '\n' = before ++ ("Subject: ".toList ++ s) :: after →
      (∀ line ∈ after, HasPrefix line "Subject: ".toList = false) →
      (parseEmailResponse response).1.Subject = s ∧ '\n' ∉ s) ∧
    (∀ line ∈ Split (parseEmailResponse response).1.Body '\n',
      HasPrefix line "Subject: ".toList = false) := by
  have hsubj : ∀ before s after,
      Split response '\n' = before ++ ("Subject: ".toList ++ s) :: after →
      (∀ line ∈ after, HasPrefix line "Subject: ".toList = false) →
      ((Split response '\n').foldl parseStep
        { Subject := [], bodyLines := [], inBody := false }).Subject = s := by
    intro before s after heq hafter
    rw [heq]
    exact parseLoop_subject_last before after s _ hafter
  have hfst : (parseEmailResponse response).1.Subject
      = ((Split response '\n').foldl parseStep
          { Subject := [], bodyLines := [], inBody := false }).Subject := by
    unfold parseEmailResponse
    simp only
    split <;> rfl
  have hsnd : (parseEmailResponse response).2 = none ↔
      ((Split response '\n').foldl parseStep
        { Subject := [], bodyLines := [], inBody := false }).Subject ≠ [] := by
    unfold parseEmailResponse
    simp only
    split
    · rename_i h
      simp [h]
    · rename_i h
      simp [h]
  refine ⟨?_, ?_, ?_⟩
  · rw [hsnd]
    constructor
    · intro hne
      have hex : ∃ line ∈ Split response '\n', HasPrefix line "Subject: ".toList = true := by
        by_contra hno
        apply hne
        apply parseLoop_subject_nil _ _ rfl
        intro line hl
        cases hp : HasPrefix line "Subject: ".toList with
        | false => rfl
        | true => exact absurd ⟨line, hl, hp⟩ hno
      obtain ⟨before, s, after, heq, hafter⟩ := exists_last_subject _ hex
      refine ⟨before, s, after, heq, hafter, ?_⟩
      rw [← hsubj before s after heq hafter]
      exact hne
    · rintro ⟨before, s, after, heq, hafter, hs⟩
      rw [hsubj before s after heq hafter]
      exact hs
  · intro before s after heq hafter
    refine ⟨by rw [hfst]; exact hsubj before s after heq hafter, ?_⟩
    have hmem : "Subject: ".toList ++ s ∈ Split response '\n' := by
      rw [heq]; simp
    have := Split_not_mem_sep response '\n' _ hmem
    intro hs
    exact this (List.mem_append_right _ hs)
  · have hbody := parseLoop_bodyLines (Split response '\n')
      { Subject := [], bodyLines := [], inBody := false }
      (Split_not_mem_sep response '\n') (by intro line hl; cases hl)
    unfold parseEmailResponse
    simp only
    split
    · intro line hl
      have : line = [] := by simpa [Split] using hl
      subst this
      decide
    · exact Join_lines_no_subject _ hbody

/-- C12 at the response "Subject: A\n\nx\nSubject: B\n\ny": the last subject
line wins, so the subject is "B", and the body "x\ny" holds neither subject
line. -/
theorem C12_last_subject_line_wins_witness :
    Split "Subject: A\n\nx\nSubject: B\n\ny".toList '\n'
      = ["Subject: A".toList, [], "x".toList] ++
          ("Subject: ".toList ++ "B".toList) :: [[], "y".toList] ∧
    ((parseEmailResponse "Subject: A\n\nx\nSubject: B\n\ny".toList).1.Subject = "B".toList ∧
      '\n' ∉ "B".toList) ∧
    (parseEmailResponse "Subject: A\n\nx\nSubject: B\n\ny".toList).1.Body = "x\ny".toList :=
  ⟨by decide,
    (C12_last_subject_line_wins "Subject: A\n\nx\nSubject: B\n\ny".toList).2.1
      ["Subject: A".toList, [], "x".toList] "B".toList [[], "y".toList] (by decide) (by decide),
    by decide⟩

end Socialbot
